import Mathlib

/-!
# fibdrv: a shallow embedding of `fibdrv.c` and its verified properties

The Linux character-device driver `fibdrv.c` exposes the Fibonacci sequence
through `open`/`release`/`read`/`write`/`llseek` file operations, keeps
per-index timing statistics, and offers a sysfs control plane to reset them.

Modelling conventions

* `long long`, `loff_t` and `ssize_t` are signed 64-bit integers (LP64 kernel);
  `int` is a signed 32-bit integer.  They are embedded as `Int`, and every
  arithmetic operation of the source that can leave the type is followed by an
  explicit two's-complement reduction (`wrap64`, `wrap32`): the kernel is built
  with `-fno-strict-overflow`, so signed arithmetic wraps.
* `uint64_t` and `uint32_t` are embedded as `Nat` with explicit `% 2 ^ 64` and
  `% 2 ^ 32`.
* Arrays are lists with checked accesses.  A function that would touch memory
  outside an array (or read an uninitialised cell) returns `none`.
* Values coming from the environment (the elapsed time measured with
  `ktime_get`, the result of the kernel library routine `kstrtoint`) are
  explicit inputs of the embedded functions.
-/

namespace Fibdrv

/-! ## Machine integers -/

/-- Constant `MAX_LENGTH` of the source: `#define MAX_LENGTH 92`. -/
def MAX_LENGTH : Int := 92

/-- Reduction of a mathematical integer to the signed 64-bit range
(`long long`, `loff_t`, `ssize_t`). -/
def wrap64 (x : Int) : Int := (x + 2 ^ 63) % 2 ^ 64 - 2 ^ 63

/-- Reduction of a mathematical integer to the signed 32-bit range (`int`). -/
def wrap32 (x : Int) : Int := (x + 2 ^ 31) % 2 ^ 32 - 2 ^ 31

/-- Membership in the signed 64-bit range. -/
def inS64 (x : Int) : Prop := -2 ^ 63 ≤ x ∧ x < 2 ^ 63

instance (x : Int) : Decidable (inS64 x) := by
  unfold inS64; infer_instance

/-! ## `fib_sequence` -/

/-- Allocation of the variable-length array `long long f[n]`: `n` cells, none
of them initialised.  A size that is not positive is undefined behaviour. -/
def vla_alloc (n : Int) : Option (List (Option Int)) :=
  if 0 < n then some (List.replicate n.toNat none) else none

/-- Read of `f[i]`: defined only inside the array and on an initialised cell. -/
def arr_load (f : List (Option Int)) (i : Int) : Option Int :=
  if i < 0 then none else (f[i.toNat]?).join

/-- Write `f[i] = v`: defined only inside the array. -/
def arr_store (f : List (Option Int)) (i : Int) (v : Int) :
    Option (List (Option Int)) :=
  if 0 ≤ i ∧ i < f.length then some (f.set i.toNat (some v)) else none

/-- State of one run of `fib_sequence`: the working array `f`, and two ghost
fields that only observe the run: `overflow` records whether some sum
`f[i - 1] + f[i - 2]` left the signed 64-bit range, `iters` counts the
executed loop iterations. -/
structure FibRun where
  f : List (Option Int)
  overflow : Bool
  iters : Nat
  deriving DecidableEq, Repr

/-- Loop body `f[i] = f[i - 1] + f[i - 2];` with `int i`. -/
def fib_body (i : Int) (s : FibRun) : Option FibRun :=
  (arr_load s.f (wrap32 (i - 1))).bind fun a =>
  (arr_load s.f (wrap32 (i - 2))).bind fun b =>
  (arr_store s.f i (wrap64 (a + b))).bind fun f =>
  some { f := f,
         overflow := s.overflow || decide (¬ inS64 (a + b)),
         iters := s.iters + 1 }

/-- Loop `for (int i = ...; i <= k; i++) body`, started at `i`.  The first
argument bounds the number of iterations; `fib_sequence_run` passes `k - 1`,
the number of values of `i` in `2 .. k`, so the bound is never what stops the
loop (see `fib_loop_fuel_mono`). -/
def fib_loop : Nat → Int → Int → FibRun → Option FibRun
  | 0, i, k, s => if i ≤ k then none else some s
  | n + 1, i, k, s =>
      if i ≤ k then (fib_body i s).bind (fib_loop n (wrap32 (i + 1)) k)
      else some s

/-- Function `fib_sequence` of the source together with the final run state:
```
long long f[k + 2];
f[0] = 0; f[1] = 1;
for (int i = 2; i <= k; i++) f[i] = f[i - 1] + f[i - 2];
return f[k];
```
-/
def fib_sequence_run (k : Int) : Option (Int × FibRun) :=
  (vla_alloc (wrap64 (k + 2))).bind fun f0 =>
  (arr_store f0 0 0).bind fun f1 =>
  (arr_store f1 1 1).bind fun f2 =>
  (fib_loop (k - 1).toNat 2 k { f := f2, overflow := false, iters := 0 }).bind fun s =>
  (arr_load s.f k).bind fun r =>
  some (r, s)

/-- Function `fib_sequence` of the source: the returned value, or `none` when
the run has undefined behaviour. -/
def fib_sequence (k : Int) : Option Int :=
  (fib_sequence_run k).map Prod.fst

/-- Fibonacci numbers as the specification defines them:
`F(0)=0, F(1)=1, F(i)=F(i-1)+F(i-2)`. -/
def fibSpec : Nat → Nat
  | 0 => 0
  | 1 => 1
  | n + 2 => fibSpec (n + 1) + fibSpec n

/-- Loop invariant of `fib_sequence` at the head of iteration `i`: the working
array has `k + 2` cells and every cell below `i` holds the Fibonacci number of
its index, reduced to 64 bits. -/
def FibInv (k i : Int) (s : FibRun) : Prop :=
  (s.f.length : Int) = k + 2 ∧
  ∀ m : Nat, (m : Int) < i → s.f[m]? = some (some (wrap64 (fibSpec m)))

/-! ## Statistics store -/

/-- The two global arrays `uint64_t *stat_ns` and `uint32_t *stat_cnt`. -/
structure Store where
  stat_ns : List Nat
  stat_cnt : List Nat
  deriving DecidableEq, Repr

/-- A store as `init_stat` allocates it: `MAX_LENGTH + 1 = 93` entries per
array, each entry a value of its C type. -/
def Store.WF (st : Store) : Prop :=
  st.stat_ns.length = 93 ∧ st.stat_cnt.length = 93 ∧
  (∀ x ∈ st.stat_ns, x < 2 ^ 64) ∧ (∀ x ∈ st.stat_cnt, x < 2 ^ 32)

instance (st : Store) : Decidable st.WF := by
  unfold Store.WF; infer_instance

/-- The store right after `kcalloc(MAX_LENGTH + 1, ...)`: all zero. -/
def Store.zero : Store :=
  { stat_ns := List.replicate 93 0, stat_cnt := List.replicate 93 0 }

/-- Read of `a[i]` in an array of unsigned counters; `none` outside the
array. -/
def u_load (a : List Nat) (i : Int) : Option Nat :=
  if i < 0 then none else a[i.toNat]?

/-- Write `a[i] = v` in an array of unsigned counters; `none` outside the
array. -/
def u_store (a : List Nat) (i : Int) (v : Nat) : Option (List Nat) :=
  if 0 ≤ i ∧ i < a.length then some (a.set i.toNat v) else none

/-! ## File operations -/

/-- The part of `struct file` the driver uses: the position `f_pos`. -/
structure File where
  f_pos : Int
  deriving DecidableEq, Repr

/-- Function `fib_read` of the source.  `offset` is the value `*offset`, `ns`
the elapsed time `ktime_to_ns(ktime_get() - begin)` as a `uint64_t`.  The
result is the returned `ssize_t`, the final value of `*offset`, and the store:
```
r = fib_sequence(*offset);
stat_ns[*offset] += ns;
stat_cnt[*offset]++;
return r;
```
-/
def fib_read (offset : Int) (ns : Nat) (st : Store) :
    Option (Int × Int × Store) :=
  (fib_sequence offset).bind fun r =>
  (u_load st.stat_ns offset).bind fun t =>
  (u_store st.stat_ns offset ((t + ns) % 2 ^ 64)).bind fun ns2 =>
  (u_load st.stat_cnt offset).bind fun c =>
  (u_store st.stat_cnt offset ((c + 1) % 2 ^ 32)).bind fun cnt2 =>
  some (r, offset, { stat_ns := ns2, stat_cnt := cnt2 })

/-- Function `fib_write` of the source: `return 1;`.  The result is the
returned value and the final value of `*offset`. -/
def fib_write (_buf : List Char) (_size : Nat) (offset : Int) : Int × Int :=
  (1, offset)

/-- Function `fib_device_lseek` of the source: the returned position and the
updated file.
```
switch (orig) {
case 0: new_pos = offset; break;
case 1: new_pos = file->f_pos + offset; break;
case 2: new_pos = MAX_LENGTH - offset; break;
}
if (new_pos > MAX_LENGTH) new_pos = MAX_LENGTH;
if (new_pos < 0) new_pos = 0;
file->f_pos = new_pos;
return new_pos;
```
-/
def fib_device_lseek (file : File) (offset : Int) (orig : Int) : Int × File :=
  let new_pos0 : Int :=
    if orig = 0 then offset
    else if orig = 1 then wrap64 (file.f_pos + offset)
    else if orig = 2 then wrap64 (MAX_LENGTH - offset)
    else 0
  let new_pos1 : Int := if new_pos0 > MAX_LENGTH then MAX_LENGTH else new_pos0
  let new_pos2 : Int := if new_pos1 < 0 then 0 else new_pos1
  (new_pos2, { file with f_pos := new_pos2 })

/-- The position a seek asks for, as a mathematical integer: `offset` from
the start, `c + offset` from the current position `c`, `92 - offset` from
the end, before clamping. -/
def seekTarget (c offset orig : Int) : Int :=
  if orig = 0 then offset
  else if orig = 1 then c + offset
  else if orig = 2 then 92 - offset
  else 0

/-- Clamp of the specification: `max(0, min(n, 92))`. -/
def clamp (n : Int) : Int := max 0 (min n 92)

/-! ## Session gate -/

/-- Error number `EBUSY` of the kernel. -/
def EBUSY : Int := 16

/-- Kernel primitive `mutex_trylock` on a mutex whose state is `locked`:
whether the lock was acquired, and the new state. -/
def mutex_trylock (locked : Bool) : Bool × Bool :=
  if locked then (false, true) else (true, true)

/-- Kernel primitive `mutex_unlock`: the new state of the mutex. -/
def mutex_unlock (_locked : Bool) : Bool := false

/-- Function `fib_open` of the source on the state of `fib_mutex`: the
returned value and the new state of the mutex.
```
if (!mutex_trylock(&fib_mutex)) return -EBUSY;
return 0;
```
-/
def fib_open (m : Bool) : Int × Bool :=
  let r := mutex_trylock m
  if !r.1 then (-EBUSY, r.2) else (0, r.2)

/-- Function `fib_release` of the source: `mutex_unlock(&fib_mutex); return 0;`. -/
def fib_release (m : Bool) : Int × Bool :=
  (0, mutex_unlock m)

/-! ## Control plane: `reset_store` -/

/-- Error number `EINVAL` of the kernel. -/
def EINVAL : Int := 22

/-- Error number `ERANGE` of the kernel. -/
def ERANGE : Int := 34

/-- The C string a buffer holds: the characters before the first NUL. -/
def c_string (buf : List Char) : List Char :=
  buf.takeWhile fun c => c ≠ Char.ofNat 0

/-- Value of a string of decimal digits. -/
def digits_value (ds : List Char) : Nat :=
  ds.foldl (fun acc c => acc * 10 + (c.toNat - 48)) 0

/-- Kernel routine `_kstrtoull` (lib/kstrtox.c) in base 10: at least one
digit, a value that fits 64 bits, then at most one newline and the end of the
string.  The result is the error number or the value. -/
def linux_kstrtoull (s : List Char) : Except Int Nat :=
  let ds := s.takeWhile Char.isDigit
  let rest := s.dropWhile Char.isDigit
  if 2 ^ 64 ≤ digits_value ds then Except.error (-ERANGE)
  else if ds.length = 0 then Except.error (-EINVAL)
  else
    let rest2 := if rest.head? = some (Char.ofNat 10) then rest.tail else rest
    if rest2 ≠ [] then Except.error (-EINVAL) else Except.ok (digits_value ds)

/-- Kernel routine `kstrtoll` (lib/kstrtox.c) in base 10: an optional sign
in front of `_kstrtoull`, and a value in the signed 64-bit range. -/
def linux_kstrtoll (s : List Char) : Except Int Int :=
  if s.head? = some '-' then
    match linux_kstrtoull s.tail with
    | Except.error e => Except.error e
    | Except.ok v => if 2 ^ 63 < v then Except.error (-ERANGE) else Except.ok (-(v : Int))
  else
    match linux_kstrtoull (if s.head? = some '+' then s.tail else s) with
    | Except.error e => Except.error e
    | Except.ok v => if 2 ^ 63 ≤ v then Except.error (-ERANGE) else Except.ok (v : Int)

/-- Kernel routine `kstrtoint(buf, 10, &val)` (lib/kstrtox.c), which the
driver calls but does not define: the returned value (`0` on success, a
negative error number otherwise) and the value stored in `val` on success. -/
def linux_kstrtoint (buf : List Char) (_base : Nat) : Int × Option Int :=
  match linux_kstrtoll (c_string buf) with
  | Except.error e => (e, none)
  | Except.ok v => if v ≠ wrap32 v then (-ERANGE, none) else (0, some v)

/-- Loop `for (i = 0; i <= MAX_LENGTH; ++i) { stat_ns[i] = 0; stat_cnt[i] = 0; }`
of `reset_store`, started at `i`.  The first argument bounds the number of
iterations; `reset_store` passes `MAX_LENGTH + 1 = 93`. -/
def reset_loop : Nat → Int → Store → Option Store
  | 0, i, st => if i ≤ MAX_LENGTH then none else some st
  | n + 1, i, st =>
      if i ≤ MAX_LENGTH then
        (u_store st.stat_ns i 0).bind fun a =>
        (u_store st.stat_cnt i 0).bind fun c =>
        reset_loop n (wrap32 (i + 1)) { stat_ns := a, stat_cnt := c }
      else some st

/-- Function `reset_store` of the source.  The kernel routine `kstrtoint` is
an input; `count` is the `size_t` argument, returned as an `ssize_t`.
```
ret = kstrtoint(buf, 10, &val);
if (ret == 0) { for (...) { stat_ns[i] = 0; stat_cnt[i] = 0; } }
return count;
```
-/
def reset_store (kstrtoint : List Char → Nat → Int × Option Int)
    (buf : List Char) (count : Nat) (st : Store) : Option (Int × Store) :=
  let ret := (kstrtoint buf 10).1
  (if ret = 0 then reset_loop 93 0 st else some st).map fun st2 =>
    (wrap64 (count : Int), st2)

/-! ## The device as a transition system -/

/-- Global state of the driver together with the open files of the device:
the mutex `fib_mutex`, the statistics arrays, and one `File` per live
session. -/
structure Sys where
  fib_mutex : Bool
  store : Store
  files : List File
  deriving DecidableEq, Repr

/-- Requests the driver serves.  A session is named by its index in
`Sys.files`. -/
inductive Op where
  | sys_open
  | sys_close (fd : Nat)
  | sys_read (fd : Nat) (ns : Nat)
  | sys_pread (fd : Nat) (ns : Nat) (pos : Int)
  | sys_write (fd : Nat) (buf : List Char) (size : Nat)
  | sys_lseek (fd : Nat) (offset : Int) (orig : Int)
  | sysfs_reset (buf : List Char) (count : Nat)
  deriving DecidableEq, Repr

/-- One request served by the driver: the returned value and the next state.
`none` when the request names no live session or the driver code has
undefined behaviour.

The calling conventions of the kernel's file layer are part of the step: an
open creates a `struct file` with `f_pos = 0` and keeps it only when
`fib_open` returns `0`; `release` is called when a live session is closed;
`read` and `write` receive a pointer to the session's position (`read(2)`,
`write(2)`) and the position is written back afterwards; a positional read
(`pread(2)`) is refused with `-EINVAL` for a negative position and otherwise
hands `fib_read` a pointer to the caller's position, the session's position
staying as it is. -/
def step (s : Sys) : Op → Option (Int × Sys)
  | Op.sys_open =>
      let r := fib_open s.fib_mutex
      if r.1 = 0 then
        some (r.1, { s with fib_mutex := r.2, files := s.files ++ [{ f_pos := 0 }] })
      else some (r.1, { s with fib_mutex := r.2 })
  | Op.sys_close fd =>
      if fd < s.files.length then
        let r := fib_release s.fib_mutex
        some (r.1, { s with fib_mutex := r.2, files := s.files.eraseIdx fd })
      else none
  | Op.sys_read fd ns =>
      (s.files[fd]?).bind fun file =>
      (fib_read file.f_pos ns s.store).map fun r =>
        (r.1, { s with store := r.2.2, files := s.files.set fd { f_pos := r.2.1 } })
  | Op.sys_pread fd ns pos =>
      (s.files[fd]?).bind fun _ =>
      if pos < 0 then some (-EINVAL, s)
      else (fib_read pos ns s.store).map fun r => (r.1, { s with store := r.2.2 })
  | Op.sys_write fd buf size =>
      (s.files[fd]?).map fun file =>
        let r := fib_write buf size file.f_pos
        (r.1, { s with files := s.files.set fd { f_pos := r.2 } })
  | Op.sys_lseek fd offset orig =>
      (s.files[fd]?).map fun file =>
        let r := fib_device_lseek file offset orig
        (r.1, { s with files := s.files.set fd r.2 })
  | Op.sysfs_reset buf count =>
      (reset_store linux_kstrtoint buf count s.store).map fun r =>
        (r.1, { s with store := r.2 })

/-- State after a load of the module in which every kernel call succeeded:
mutex free, statistics zeroed, no session. -/
def Sys.init : Sys :=
  { fib_mutex := false, store := Store.zero, files := [] }

/-- States the driver can be in: the initial state and every state a served
request leads to. -/
inductive Reachable : Sys → Prop where
  | init : Reachable Sys.init
  | step {s s2 : Sys} {op : Op} {r : Int} :
      Reachable s → step s op = some (r, s2) → Reachable s2

/-- Invariant of the transition system: at most one session, the mutex is held
exactly when there is one, every cursor lies in `0 .. 92`, and the store is
well formed. -/
def SysInv (s : Sys) : Prop :=
  s.files.length ≤ 1 ∧ (s.fib_mutex = true ↔ s.files.length = 1) ∧
  (∀ f ∈ s.files, 0 ≤ f.f_pos ∧ f.f_pos ≤ 92) ∧ s.store.WF


/-- A run of requests from a state: the state after all of them, or `none`
when one of them is not served. -/
def run (s : Sys) : List Op → Option Sys
  | [] => some s
  | op :: ops => (step s op).bind fun r => run r.2 ops

/-- Invariant of a statistics entry in the specification: for every index,
a count of 0 goes with a total time of 0. -/
def StatInv (st : Store) : Prop :=
  ∀ i : Nat, i ≤ 92 → st.stat_cnt.getD i 0 = 0 → st.stat_ns.getD i 0 = 0

/-! ## Control plane: `result_show` -/

/-- Decimal digits of an unsigned value, as the conversions `%llu` and `%lu`
print them. -/
def dec (n : Nat) : List Char := Nat.toDigits 10 n

/-- Decimal digits of an `int`, as the conversion `%d` prints them. -/
def dec_int (i : Int) : List Char :=
  if i < 0 then '-' :: dec (-i).toNat else dec i.toNat

/-- Text the format `"%d: %llu / %lu\n"` produces for the index `i`, the time
`ns` and the count `cnt`. -/
def stat_line (i : Int) (ns cnt : Nat) : List Char :=
  dec_int i ++ [':', ' '] ++ dec ns ++ [' ', '/', ' '] ++ dec cnt ++ [Char.ofNat 10]

/-- Kernel routine `snprintf(buf + pos, size, ...)` (lib/vsprintf.c), `text`
being the formatted output: at most `size - 1` characters of `text` and a
terminating NUL are stored from `buf + pos` on, and the length of the whole
`text` is returned.  A `size` above `INT_MAX` is rejected: nothing is stored
and 0 is returned.  `none` when the stored bytes would not lie inside `buf`. -/
def snprintf (buf : List Char) (pos size : Nat) (text : List Char) :
    Option (Nat × List Char) :=
  if 2147483647 < size then some (0, buf)
  else if size = 0 then some (text.length, buf)
  else
    let w := text.take (size - 1) ++ [Char.ofNat 0]
    if pos + w.length ≤ buf.length then
      some (text.length, buf.take pos ++ w ++ buf.drop (pos + w.length))
    else none

/-- State of one run of `result_show`: the page `buf`, the accumulated
length `len`, and two ghost fields that only observe the run: `cut` records
whether some line did not fit the size handed to `snprintf`, `marker` whether
the branch that appends the truncation marker was taken. -/
structure ShowRun where
  buf : List Char
  len : Nat
  cut : Bool
  marker : Bool
  deriving DecidableEq, Repr

/-- Loop of `result_show`, started at `i`:
```
for (i = ...; i <= MAX_LENGTH && len < limit; ++i) {
    if (stat_cnt[i] == 0) continue;
    len += snprintf(buf + len, limit - len, "%d: %llu / %lu\n", i, stat_ns[i], stat_cnt[i]);
}
```
The first argument bounds the number of iterations; `result_show` passes
`MAX_LENGTH + 1 = 93`. -/
def show_loop (limit : Nat) (st : Store) : Nat → Int → ShowRun → Option ShowRun
  | 0, i, r => if i ≤ MAX_LENGTH ∧ r.len < limit then none else some r
  | n + 1, i, r =>
      if i ≤ MAX_LENGTH ∧ r.len < limit then
        (u_load st.stat_cnt i).bind fun cnt =>
        if cnt = 0 then show_loop limit st n (wrap32 (i + 1)) r
        else
          (u_load st.stat_ns i).bind fun ns =>
          (snprintf r.buf r.len ((limit + 2 ^ 64 - r.len) % 2 ^ 64)
            (stat_line i ns cnt)).bind fun p =>
          show_loop limit st n (wrap32 (i + 1))
            { r with buf := p.2,
                     len := (r.len + p.1) % 2 ^ 64,
                     cut := r.cut ||
                       decide (limit ≤ r.len + (stat_line i ns cnt).length) }
      else some r

/-- Function `result_show` of the source, for a page size `PAGE_SIZE` (a
constant of the kernel) and a page `buf`: the returned `ssize_t` and the final
run state.
```
size_t limit = PAGE_SIZE - 32;
size_t len = 0;
for (...) { ... }
if (len >= limit)
    len += snprintf(buf + len, PAGE_SIZE - len, "... more lines truncated\n");
return len;
```
-/
def result_show (PAGE_SIZE : Nat) (st : Store) (buf : List Char) :
    Option (Int × ShowRun) :=
  let limit := (PAGE_SIZE + 2 ^ 64 - 32) % 2 ^ 64
  (show_loop limit st 93 0
    { buf := buf, len := 0, cut := false, marker := false }).bind fun r =>
  if limit ≤ r.len then
    (snprintf r.buf r.len ((PAGE_SIZE + 2 ^ 64 - r.len) % 2 ^ 64)
      "... more lines truncated\n".toList).map fun p =>
      (wrap64 (((r.len + p.1) % 2 ^ 64 : Nat) : Int),
        { r with buf := p.2, len := (r.len + p.1) % 2 ^ 64, marker := true })
  else some (wrap64 (r.len : Int), r)

/-- Indexes `result_show` is to list: those of `0 .. 92` with a count other
than 0, in the order of `List.range`. -/
def shown_indexes (st : Store) (n : Nat) : List Nat :=
  (List.range n).filter fun i => decide (st.stat_cnt.getD i 0 ≠ 0)

/-- The listing of the specification up to index `n`: one line
`<i>: <stat_ns[i]> / <stat_cnt[i]>` for every shown index below `n`. -/
def listing (st : Store) (n : Nat) : List Char :=
  (shown_indexes st n).flatMap fun i =>
    stat_line (i : Int) (st.stat_ns.getD i 0) (st.stat_cnt.getD i 0)

/-! ## Startup: `init_stat` and `init_fib_dev` -/

/-- Error number `ENOMEM` of the kernel. -/
def ENOMEM : Int := 12

/-- Results of the kernel calls of startup, which the environment decides:
a return code for the calls that return `int` (negative on failure), and for
the calls that return a pointer whether the pointer is other than `NULL`, the
failure the source tests for. -/
structure InitEnv where
  alloc_chrdev_region : Int
  cdev_alloc : Bool
  cdev_add : Int
  class_create : Bool
  device_create : Bool
  kobject_create_and_add : Bool
  sysfs_create_group : Int
  kcalloc_ns : Bool
  kcalloc_cnt : Bool
  deriving DecidableEq, Repr

/-- What startup holds: for every kind of resource the number of
acquisitions minus the number of releases (0 is clean, a positive balance is
a resource still registered or allocated, a negative one a resource released
more often than acquired), and the two array pointers (`none` is `NULL`). -/
structure InitState where
  region : Int
  cdev : Int
  cls : Int
  device : Int
  kobj : Int
  group : Int
  ns_alloc : Int
  cnt_alloc : Int
  stat_ns : Option (List Nat)
  stat_cnt : Option (List Nat)
  deriving DecidableEq, Repr

/-- Nothing acquired, both pointers `NULL`. -/
def InitState.empty : InitState :=
  { region := 0, cdev := 0, cls := 0, device := 0, kobj := 0, group := 0,
    ns_alloc := 0, cnt_alloc := 0, stat_ns := none, stat_cnt := none }

/-- Every balance is 0: nothing is left registered or allocated and nothing
was released twice. -/
def InitState.clean (s : InitState) : Prop :=
  s.region = 0 ∧ s.cdev = 0 ∧ s.cls = 0 ∧ s.device = 0 ∧ s.kobj = 0 ∧
  s.group = 0 ∧ s.ns_alloc = 0 ∧ s.cnt_alloc = 0

instance (s : InitState) : Decidable s.clean := by
  unfold InitState.clean; infer_instance

/-- Kernel routine `kobject_put(stat_kobj)`: drops the reference to the
kobject, which releases it together with the attribute group below it. -/
def kobject_put (s : InitState) : InitState :=
  { s with kobj := s.kobj - 1, group := 0 }

/-- Kernel routine `kfree(stat_ns)`: releases the array unless the pointer is
`NULL`. -/
def kfree_ns (s : InitState) : InitState :=
  if s.stat_ns.isSome then { s with ns_alloc := s.ns_alloc - 1 } else s

/-- Kernel routine `kfree(stat_cnt)`: releases the array unless the pointer
is `NULL`. -/
def kfree_cnt (s : InitState) : InitState :=
  if s.stat_cnt.isSome then { s with cnt_alloc := s.cnt_alloc - 1 } else s

/-- Function `init_stat` of the source: the returned value and the state.
```
stat_kobj = kobject_create_and_add("fibonacci", kernel_kobj);
if (!stat_kobj) return -ENOMEM;
int rc = sysfs_create_group(stat_kobj, &stat_group);
if (rc) { kobject_put(stat_kobj); }
stat_ns = kcalloc(MAX_LENGTH + 1, sizeof(uint64_t), GFP_KERNEL);
stat_cnt = kcalloc(MAX_LENGTH + 1, sizeof(uint32_t), GFP_KERNEL);
if (!stat_ns || !stat_ns) {
    kfree(stat_cnt); kfree(stat_ns); kobject_put(stat_kobj);
    return -ENOMEM;
}
return rc;
```
-/
def init_stat (env : InitEnv) (s : InitState) : Int × InitState :=
  if !env.kobject_create_and_add then (-ENOMEM, s)
  else
    let s1 := { s with kobj := s.kobj + 1 }
    let rc := env.sysfs_create_group
    let s2 := if rc ≠ 0 then kobject_put s1 else { s1 with group := s1.group + 1 }
    let s3 :=
      if env.kcalloc_ns then
        { s2 with ns_alloc := s2.ns_alloc + 1, stat_ns := some (List.replicate 93 0) }
      else { s2 with stat_ns := none }
    let s4 :=
      if env.kcalloc_cnt then
        { s3 with cnt_alloc := s3.cnt_alloc + 1, stat_cnt := some (List.replicate 93 0) }
      else { s3 with stat_cnt := none }
    if s4.stat_ns.isNone || s4.stat_ns.isNone then
      (-ENOMEM, kobject_put (kfree_ns (kfree_cnt s4)))
    else (rc, s4)

/-- Function `init_fib_dev` of the source: the returned value and the state
at return.  The labels `failed_stat_create`, `failed_device_create`,
`failed_class_create` and `failed_cdev` fall through to one another, in this
order. -/
def init_fib_dev (env : InitEnv) : Int × InitState :=
  let s0 := InitState.empty
  let failed_cdev := fun (s : InitState) => { s with region := s.region - 1 }
  let failed_class_create := fun (s : InitState) =>
    failed_cdev { s with cdev := s.cdev - 1 }
  let failed_device_create := fun (s : InitState) =>
    failed_class_create { s with cls := s.cls - 1 }
  let failed_stat_create := fun (s : InitState) =>
    failed_device_create { s with device := s.device - 1 }
  if env.alloc_chrdev_region < 0 then (env.alloc_chrdev_region, s0)
  else
    let s1 := { s0 with region := s0.region + 1 }
    if !env.cdev_alloc then (-1, failed_cdev s1)
    else
      let s2 := { s1 with cdev := s1.cdev + 1 }
      if env.cdev_add < 0 then (-2, failed_cdev s2)
      else if !env.class_create then (-3, failed_class_create s2)
      else
        let s3 := { s2 with cls := s2.cls + 1 }
        if !env.device_create then (-4, failed_device_create s3)
        else
          let s4 := { s3 with device := s3.device + 1 }
          let r := init_stat env s4
          if r.1 < 0 then (r.1, failed_stat_create r.2)
          else (r.1, r.2)

/-- The environment in which every kernel call of startup succeeds. -/
def InitEnv.ok : InitEnv :=
  { alloc_chrdev_region := 0, cdev_alloc := true, cdev_add := 0,
    class_create := true, device_create := true,
    kobject_create_and_add := true, sysfs_create_group := 0,
    kcalloc_ns := true, kcalloc_cnt := true }

/-- Invariant of the loop of `result_show` at the head of iteration `j`, for
a page of `P` bytes: the first `len` bytes of the page are the listing of the
indexes below `j`, that listing is at most `38 * j - min j 10` bytes long, no
line was cut and the marker branch was not taken. -/
def ShowInv (P : Nat) (st : Store) (j : Nat) (r : ShowRun) : Prop :=
  r.buf.length = P ∧ r.len = (listing st j).length ∧
  r.buf.take r.len = listing st j ∧ r.len ≤ 38 * j - min j 10 ∧
  r.cut = false ∧ r.marker = false
/-! ## Lemmas on machine integers -/

theorem wrap64_of_inS64 {x : Int} (h : inS64 x) : wrap64 x = x := by
  unfold inS64 at h
  unfold wrap64
  omega

theorem wrap64_inS64 (x : Int) : inS64 (wrap64 x) := by
  unfold inS64 wrap64
  omega

theorem wrap64_add_wrap64 (a b : Int) :
    wrap64 (wrap64 a + wrap64 b) = wrap64 (a + b) := by
  unfold wrap64
  omega

theorem wrap32_of_small {x : Int} (h1 : -2 ^ 31 ≤ x) (h2 : x < 2 ^ 31) :
    wrap32 x = x := by
  unfold wrap32
  omega

/-! ## Lemmas on the specification sequence -/

theorem fibSpec_add_two (n : Nat) :
    fibSpec (n + 2) = fibSpec (n + 1) + fibSpec n := rfl

theorem fibSpec_le_succ (n : Nat) : fibSpec n ≤ fibSpec (n + 1) := by
  cases n with
  | zero => decide
  | succ m => rw [fibSpec_add_two]; omega

theorem fibSpec_mono {m n : Nat} (h : m ≤ n) : fibSpec m ≤ fibSpec n := by
  induction h with
  | refl => exact Nat.le_refl _
  | step _ ih => exact Nat.le_trans ih (fibSpec_le_succ _)

theorem fibSpec_92 : fibSpec 92 = 7540113804746346429 := by rfl

theorem fibSpec_93 : fibSpec 93 = 12200160415121876738 := by rfl

theorem fibSpec_inS64 {m : Nat} (h : m ≤ 92) : inS64 (fibSpec m : Int) := by
  have h1 := fibSpec_mono h
  rw [fibSpec_92] at h1
  unfold inS64
  omega

/-! ## Lemmas on the checked array accesses -/

theorem arr_load_of_getElem? {f : List (Option Int)} {m : Nat} {v : Int}
    (h : f[m]? = some (some v)) : arr_load f (m : Int) = some v := by
  unfold arr_load
  have : ¬ ((m : Int) < 0) := by omega
  simp [this, h]

theorem arr_store_of_lt {f : List (Option Int)} {m : Nat} (v : Int)
    (h : m < f.length) : arr_store f (m : Int) v = some (f.set m (some v)) := by
  unfold arr_store
  have : (0 : Int) ≤ m ∧ (m : Int) < f.length := by omega
  simp [this]

/-! ## The loop invariant of `fib_sequence` -/

theorem fib_body_spec {k : Int} {j : Nat} {s : FibRun}
    (hk : k < 2 ^ 31 - 1) (hjk : (j : Int) + 2 ≤ k)
    (hinv : FibInv k ((j : Int) + 2) s) :
    ∃ s2, fib_body ((j : Int) + 2) s = some s2 ∧
      FibInv k ((j : Int) + 2 + 1) s2 ∧
      s2.iters = s.iters + 1 ∧
      (j + 2 ≤ 92 → s2.overflow = s.overflow) := by
  obtain ⟨hlen, hcells⟩ := hinv
  have ha := arr_load_of_getElem? (hcells (j + 1) (by push_cast; omega))
  have hb := arr_load_of_getElem? (hcells j (by omega))
  have hw1 : wrap32 ((j : Int) + 2 - 1) = ((j + 1 : Nat) : Int) := by
    rw [wrap32_of_small (by omega) (by omega)]; push_cast; omega
  have hw2 : wrap32 ((j : Int) + 2 - 2) = (j : Int) := by
    rw [wrap32_of_small (by omega) (by omega)]; omega
  have hlt : j + 2 < s.f.length := by omega
  have hst := arr_store_of_lt
    (wrap64 (wrap64 (fibSpec (j + 1)) + wrap64 (fibSpec j))) hlt
  have hidx : ((j : Int) + 2) = ((j + 2 : Nat) : Int) := by push_cast; rfl
  refine ⟨{ f := s.f.set (j + 2)
              (some (wrap64 (wrap64 (fibSpec (j + 1)) + wrap64 (fibSpec j)))),
            overflow := s.overflow ||
              decide (¬ inS64 (wrap64 (fibSpec (j + 1)) + wrap64 (fibSpec j))),
            iters := s.iters + 1 }, ?_, ⟨?_, ?_⟩, rfl, ?_⟩
  · unfold fib_body
    rw [hw1, hw2, ha, hb, hidx, Option.some_bind, Option.some_bind, hst,
      Option.some_bind]
  · simpa using hlen
  · intro m hm
    by_cases hmj : m = j + 2
    · subst hmj
      simp only [List.getElem?_set_self hlt, wrap64_add_wrap64, fibSpec_add_two]
      push_cast
      rfl
    · rw [List.getElem?_set_ne (Ne.symm hmj)]
      exact hcells m (by omega)
  · intro h92
    have h1 := fibSpec_inS64 (show j + 1 ≤ 92 by omega)
    have h0 := fibSpec_inS64 (show j ≤ 92 by omega)
    have h2 := fibSpec_inS64 h92
    have hsum : inS64 (wrap64 (fibSpec (j + 1)) + wrap64 (fibSpec j)) := by
      rw [wrap64_of_inS64 h1, wrap64_of_inS64 h0]
      rw [fibSpec_add_two] at h2
      push_cast at h2
      exact h2
    simp [hsum]

theorem fib_loop_spec (k : Int) (hk : k < 2 ^ 31 - 1) :
    ∀ (n j : Nat) (s : FibRun), (j : Int) + 2 + n = k + 1 →
      FibInv k ((j : Int) + 2) s →
      ∃ s2, fib_loop n ((j : Int) + 2) k s = some s2 ∧
        FibInv k (k + 1) s2 ∧
        s2.iters = s.iters + n ∧
        (k ≤ 92 → s2.overflow = s.overflow) := by
  intro n
  induction n with
  | zero =>
    intro j s hn hinv
    have hgt : ¬ ((j : Int) + 2 ≤ k) := by omega
    have hji : (j : Int) + 2 = k + 1 := by omega
    refine ⟨s, ?_, ?_, rfl, fun _ => rfl⟩
    · simp [fib_loop, hgt]
    · rw [← hji]; exact hinv
  | succ n ih =>
    intro j s hn hinv
    have hle : (j : Int) + 2 ≤ k := by omega
    obtain ⟨s1, hbody, hinv1, hit1, hov1⟩ := fib_body_spec hk hle hinv
    have hinc : wrap32 ((j : Int) + 2 + 1) = ((j + 1 : Nat) : Int) + 2 := by
      rw [wrap32_of_small (by omega) (by omega)]; push_cast; omega
    have hinv1b : FibInv k (((j + 1 : Nat) : Int) + 2) s1 := by
      have : (((j + 1 : Nat) : Int) + 2) = (j : Int) + 2 + 1 := by
        push_cast; omega
      rw [this]; exact hinv1
    obtain ⟨s2, hloop, hinv2, hit2, hov2⟩ :=
      ih (j + 1) s1 (by push_cast; omega) hinv1b
    refine ⟨s2, ?_, hinv2, ?_, ?_⟩
    · simp only [fib_loop, hle, if_true, hbody, Option.some_bind, hinc]
      exact hloop
    · omega
    · intro h92
      rw [hov2 h92, hov1 (by omega)]

/-- Extra iterations never change the result of a run that finished. -/
theorem fib_loop_fuel_mono (k : Int) :
    ∀ (n : Nat) (i : Int) (s s2 : FibRun), fib_loop n i k s = some s2 →
      ∀ m : Nat, fib_loop (n + m) i k s = some s2 := by
  intro n
  induction n with
  | zero =>
    intro i s s2 h m
    by_cases hik : i ≤ k
    · simp [fib_loop, hik] at h
    · cases m with
      | zero => exact h
      | succ m =>
        simp only [fib_loop, hik, if_false] at h
        simp only [Nat.zero_add, fib_loop, hik, if_false]
        exact h
  | succ n ih =>
    intro i s s2 h m
    have hnm : n + 1 + m = (n + m) + 1 := by omega
    rw [hnm]
    by_cases hik : i ≤ k
    · simp only [fib_loop, hik, if_true] at h ⊢
      cases hb : fib_body i s with
      | none => rw [hb] at h; simp at h
      | some s1 =>
        rw [hb, Option.some_bind] at h
        rw [Option.some_bind]
        exact ih _ _ _ h m
    · simp only [fib_loop, hik, if_false] at h ⊢
      exact h

/-- Run of `fib_sequence` on an index that an `int` loop counter can reach:
it returns the Fibonacci number of the index reduced to 64 bits, after
`k - 1` iterations, and with no overflow when `k ≤ 92`. -/
theorem fib_sequence_run_spec (n : Nat) (hk : (n : Int) < 2 ^ 31 - 1) :
    ∃ s, fib_sequence_run (n : Int) = some (wrap64 (fibSpec n), s) ∧
      s.iters = n - 1 ∧ ((n : Int) ≤ 92 → s.overflow = false) ∧
      (s.f.length : Int) = (n : Int) + 2 := by
  cases n with
  | zero => exact ⟨_, rfl, rfl, fun _ => rfl, rfl⟩
  | succ m =>
    have hsz : wrap64 (((m + 1 : Nat) : Int) + 2) = ((m + 3 : Nat) : Int) := by
      rw [wrap64_of_inS64 (by unfold inS64; omega)]; push_cast; omega
    have halloc : vla_alloc (((m + 3 : Nat) : Int))
        = some (List.replicate (m + 3) none) := by
      unfold vla_alloc
      have : (0 : Int) < ((m + 3 : Nat) : Int) := by omega
      rw [if_pos this, Int.toNat_ofNat]
    have hs0 : arr_store (List.replicate (m + 3) none) 0 0
        = some ((List.replicate (m + 3) (none : Option Int)).set 0 (some 0)) :=
      arr_store_of_lt (m := 0) 0 (by simp)
    have hs1 : arr_store ((List.replicate (m + 3) (none : Option Int)).set 0 (some 0)) 1 1
        = some (((List.replicate (m + 3) (none : Option Int)).set 0 (some 0)).set 1 (some 1)) :=
      arr_store_of_lt (m := 1) 1 (by simp)
    have hinv : FibInv ((m + 1 : Nat) : Int) (((0 : Nat) : Int) + 2)
        { f := ((List.replicate (m + 3) (none : Option Int)).set 0 (some 0)).set 1 (some 1),
          overflow := false, iters := 0 } := by
      refine ⟨by simp; omega, ?_⟩
      intro i hi
      have hi2 : i = 0 ∨ i = 1 := by omega
      rcases hi2 with rfl | rfl
      · simp [fibSpec, wrap64]
      · simp [fibSpec, wrap64]
    obtain ⟨s, hloop, ⟨hlen, hcells⟩, hit, hov⟩ :=
      fib_loop_spec _ hk m 0 _ (by push_cast; omega) hinv
    have hfuel : (((m + 1 : Nat) : Int) - 1).toNat = m := by omega
    have hload := arr_load_of_getElem? (hcells (m + 1) (by omega))
    refine ⟨s, ?_, ?_, ?_, hlen⟩
    · unfold fib_sequence_run
      rw [hsz, halloc, Option.some_bind, hs0, Option.some_bind, hs1,
        Option.some_bind, hfuel]
      simp only [Nat.cast_zero, zero_add] at hloop
      rw [hloop, Option.some_bind, hload, Option.some_bind]
    · simpa using hit
    · intro h92
      rw [hov h92]

theorem fib_sequence_spec (n : Nat) (hk : (n : Int) < 2 ^ 31 - 1) :
    fib_sequence (n : Int) = some (wrap64 (fibSpec n)) := by
  obtain ⟨s, hrun, _⟩ := fib_sequence_run_spec n hk
  simp [fib_sequence, hrun]

theorem fib_sequence_exact (n : Nat) (hk : n ≤ 92) :
    fib_sequence (n : Int) = some (fibSpec n : Int) := by
  rw [fib_sequence_spec n (by omega), wrap64_of_inS64 (fibSpec_inS64 hk)]

set_option maxRecDepth 100000 in
/-- The run of `fib_sequence 93` does see a sum leave the signed 64-bit
range. -/
theorem fib_sequence_run_93_overflow :
    (fib_sequence_run 93).map (fun p => p.2.overflow) = some true := by
  decide

/-! ## Lemmas on `fib_device_lseek` -/

theorem clamp_range (n : Int) : 0 ≤ clamp n ∧ clamp n ≤ 92 := by
  unfold clamp
  omega

theorem fib_device_lseek_eq (file : File) (offset orig : Int) :
    fib_device_lseek file offset orig =
      (clamp (if orig = 0 then offset
              else if orig = 1 then wrap64 (file.f_pos + offset)
              else if orig = 2 then wrap64 (92 - offset) else 0),
       { f_pos := clamp (if orig = 0 then offset
              else if orig = 1 then wrap64 (file.f_pos + offset)
              else if orig = 2 then wrap64 (92 - offset) else 0) }) := by
  have key : ∀ x : Int,
      (if (if x > 92 then 92 else x) < 0 then 0 else (if x > 92 then 92 else x))
        = clamp x := by
    intro x
    unfold clamp
    split_ifs <;> omega
  simp only [fib_device_lseek, MAX_LENGTH, key]

theorem fib_device_lseek_range (file : File) (offset orig : Int) :
    0 ≤ (fib_device_lseek file offset orig).1 ∧
    (fib_device_lseek file offset orig).1 ≤ 92 ∧
    (fib_device_lseek file offset orig).2.f_pos
      = (fib_device_lseek file offset orig).1 := by
  rw [fib_device_lseek_eq]
  exact ⟨(clamp_range _).1, (clamp_range _).2, rfl⟩

/-! ## Lemmas on the statistics store -/

theorem u_load_of_lt {a : List Nat} {m : Nat} (h : m < a.length) :
    u_load a (m : Int) = some (a.getD m 0) := by
  unfold u_load
  have : ¬ ((m : Int) < 0) := by omega
  simp [this, List.getD, List.getElem?_eq_getElem h]

theorem u_store_of_lt {a : List Nat} {m : Nat} (v : Nat) (h : m < a.length) :
    u_store a (m : Int) v = some (a.set m v) := by
  unfold u_store
  have : (0 : Int) ≤ m ∧ (m : Int) < a.length := by omega
  simp [this]

theorem mem_set_lt {a : List Nat} {B : Nat} (h : ∀ x ∈ a, x < B) (m v : Nat)
    (hv : v < B) : ∀ x ∈ a.set m v, x < B := by
  intro x hx
  rcases List.mem_or_eq_of_mem_set hx with h1 | h1
  · exact h x h1
  · rw [h1]; exact hv

theorem Store.zero_WF : Store.zero.WF := by
  refine ⟨by simp [Store.zero], by simp [Store.zero], ?_, ?_⟩
  · intro x hx
    simp only [Store.zero, List.mem_replicate] at hx
    rw [hx.2]; exact Nat.two_pow_pos 64
  · intro x hx
    simp only [Store.zero, List.mem_replicate] at hx
    rw [hx.2]; exact Nat.two_pow_pos 32

/-- The store after one read at index `n` with elapsed time `ns`. -/
theorem fib_read_spec (n : Nat) (hn : n ≤ 92) (ns : Nat) (st : Store)
    (hwf : st.WF) :
    fib_read (n : Int) ns st = some ((fibSpec n : Int), (n : Int),
      { stat_ns := st.stat_ns.set n ((st.stat_ns.getD n 0 + ns) % 2 ^ 64),
        stat_cnt := st.stat_cnt.set n ((st.stat_cnt.getD n 0 + 1) % 2 ^ 32) }) := by
  obtain ⟨hl1, hl2, _, _⟩ := hwf
  have h1 : n < st.stat_ns.length := by omega
  have h2 : n < st.stat_cnt.length := by omega
  unfold fib_read
  rw [fib_sequence_exact n hn, Option.some_bind, u_load_of_lt h1,
    Option.some_bind, u_store_of_lt _ h1, Option.some_bind, u_load_of_lt h2,
    Option.some_bind, u_store_of_lt _ h2, Option.some_bind]

theorem set_set_WF (st : Store) (hwf : st.WF) (n a c : Nat) :
    Store.WF { stat_ns := st.stat_ns.set n (a % 2 ^ 64),
               stat_cnt := st.stat_cnt.set n (c % 2 ^ 32) } := by
  obtain ⟨hl1, hl2, hb1, hb2⟩ := hwf
  refine ⟨by simpa using hl1, by simpa using hl2, ?_, ?_⟩
  · exact mem_set_lt hb1 _ _ (Nat.mod_lt _ (Nat.two_pow_pos 64))
  · exact mem_set_lt hb2 _ _ (Nat.mod_lt _ (Nat.two_pow_pos 32))

/-- The function `fib_read` does not check `*offset` itself: one past the
last index the statistics access is outside the arrays.  Its safety rests on
the position it is handed. -/
theorem fib_read_unchecked (ns : Nat) : fib_read 93 ns Store.zero = none := by
  have h93 : fib_sequence 93 = some (wrap64 (fibSpec 93)) :=
    fib_sequence_spec 93 (by decide)
  have hload : u_load Store.zero.stat_ns 93 = none := by
    simp [u_load, Store.zero]
  unfold fib_read
  rw [h93, Option.some_bind, hload]
  rfl

/-- Every read of a well-formed store at a cursor in `0 .. 92` is defined,
returns the Fibonacci number, keeps the cursor and keeps the store well
formed. -/
theorem fib_read_defined (k : Int) (h0 : 0 ≤ k) (h92 : k ≤ 92) (ns : Nat)
    (st : Store) (hwf : st.WF) :
    ∃ st2, fib_read k ns st = some ((fibSpec k.toNat : Int), k, st2) ∧
      st2.WF := by
  obtain ⟨n, rfl⟩ := Int.eq_ofNat_of_zero_le h0
  have hn : n ≤ 92 := by omega
  exact ⟨_, by simpa using fib_read_spec n hn ns st hwf, set_set_WF st hwf _ _ _⟩

/-- A read that is defined was handed an offset of `0 .. 92`. -/
theorem fib_read_some_range {offset : Int} {ns : Nat} {st : Store}
    {r : Int × Int × Store} (hwf : st.WF)
    (h : fib_read offset ns st = some r) : 0 ≤ offset ∧ offset ≤ 92 := by
  unfold fib_read at h
  simp only [Option.bind_eq_some] at h
  obtain ⟨_, _, t, ht, _⟩ := h
  unfold u_load at ht
  by_cases hneg : offset < 0
  · simp [hneg] at ht
  · simp only [hneg, if_false] at ht
    have hlt : offset.toNat < st.stat_ns.length := by
      by_contra hge
      rw [List.getElem?_eq_none (Nat.le_of_not_lt hge)] at ht
      exact absurd ht (by simp)
    rw [hwf.1] at hlt
    omega

/-! ## Lemmas on `reset_store` -/

theorem reset_loop_spec :
    ∀ (n j : Nat) (xs ys : List Nat), j + n = 93 → xs.length = 93 →
      ys.length = 93 →
      ∃ xs2 ys2, reset_loop n (j : Int) { stat_ns := xs, stat_cnt := ys }
          = some { stat_ns := xs2, stat_cnt := ys2 } ∧
        xs2.length = 93 ∧ ys2.length = 93 ∧
        (∀ m, j ≤ m → m < 93 → xs2[m]? = some 0 ∧ ys2[m]? = some 0) ∧
        (∀ m, m < j → xs2[m]? = xs[m]? ∧ ys2[m]? = ys[m]?) := by
  intro n
  induction n with
  | zero =>
    intro j xs ys hj ha hc
    have hgt : ¬ ((j : Int) ≤ MAX_LENGTH) := by unfold MAX_LENGTH; omega
    refine ⟨xs, ys, by simp [reset_loop, hgt], ha, hc, ?_, fun m _ => ⟨rfl, rfl⟩⟩
    intro m h1 h2
    omega
  | succ n ih =>
    intro j xs ys hj ha hc
    have hle : (j : Int) ≤ MAX_LENGTH := by unfold MAX_LENGTH; omega
    have hja : j < xs.length := by omega
    have hjc : j < ys.length := by omega
    have hinc : wrap32 ((j : Int) + 1) = ((j + 1 : Nat) : Int) := by
      rw [wrap32_of_small (by omega) (by omega)]; push_cast; rfl
    obtain ⟨xs2, ys2, hrun, hla, hlc, hzero, hkeep⟩ :=
      ih (j + 1) (xs.set j 0) (ys.set j 0) (by omega) (by simpa using ha)
        (by simpa using hc)
    refine ⟨xs2, ys2, ?_, hla, hlc, ?_, ?_⟩
    · simp only [reset_loop, hle, if_true, u_store_of_lt 0 hja,
        u_store_of_lt 0 hjc, Option.some_bind, hinc]
      exact hrun
    · intro m h1 h2
      by_cases hm : m = j
      · subst hm
        have := hkeep m (by omega)
        rw [this.1, this.2, List.getElem?_set_self hja,
          List.getElem?_set_self hjc]
        exact ⟨rfl, rfl⟩
      · exact hzero m (by omega) h2
    · intro m hm
      have := hkeep m (by omega)
      rw [this.1, this.2, List.getElem?_set_ne (by omega),
        List.getElem?_set_ne (by omega)]
      exact ⟨rfl, rfl⟩

theorem eq_replicate_zero {a : List Nat} (hl : a.length = 93)
    (h : ∀ m, m < 93 → a[m]? = some 0) : a = List.replicate 93 0 := by
  apply List.ext_getElem?
  intro m
  by_cases hm : m < 93
  · rw [h m hm, List.getElem?_replicate]
    simp [hm]
  · rw [List.getElem?_eq_none (by omega), List.getElem?_eq_none (by simp; omega)]

theorem reset_loop_zero (st : Store) (h1 : st.stat_ns.length = 93)
    (h2 : st.stat_cnt.length = 93) : reset_loop 93 0 st = some Store.zero := by
  obtain ⟨a2, c2, hrun, hla, hlc, hzero, _⟩ :=
    reset_loop_spec 93 0 st.stat_ns st.stat_cnt rfl h1 h2
  have ha := eq_replicate_zero hla (fun m hm => (hzero m (Nat.zero_le m) hm).1)
  have hc := eq_replicate_zero hlc (fun m hm => (hzero m (Nat.zero_le m) hm).2)
  rw [ha, hc] at hrun
  exact hrun

theorem reset_store_ok (p : List Char → Nat → Int × Option Int)
    (buf : List Char) (count : Nat) (st : Store) (hp : (p buf 10).1 = 0)
    (h1 : st.stat_ns.length = 93) (h2 : st.stat_cnt.length = 93) :
    reset_store p buf count st = some (wrap64 (count : Int), Store.zero) := by
  simp [reset_store, hp, reset_loop_zero st h1 h2]

theorem reset_store_fail (p : List Char → Nat → Int × Option Int)
    (buf : List Char) (count : Nat) (st : Store) (hp : (p buf 10).1 ≠ 0) :
    reset_store p buf count st = some (wrap64 (count : Int), st) := by
  simp [reset_store, hp]

theorem Store.zero_getElem? (i : Nat) (hi : i ≤ 92) :
    Store.zero.stat_ns[i]? = some 0 ∧ Store.zero.stat_cnt[i]? = some 0 := by
  have h93 : i < 93 := by omega
  have hz : (List.replicate 93 (0 : Nat))[i]? = some 0 := by
    rw [List.getElem?_replicate, if_pos h93]
  exact ⟨hz, hz⟩



theorem getD_of_getElem? {l : List Nat} {k v : Nat} (h : l[k]? = some v) :
    l.getD k 0 = v := by
  simp [h]

theorem getElem?_of_lt_getD {l : List Nat} {k : Nat} (h : k < l.length) :
    l[k]? = some (l.getD k 0) := by
  simp [List.getElem?_eq_getElem h]

/-- One read at index `k`, entry by entry. -/
theorem fib_read_entry (k : Nat) (hk : k ≤ 92) (e : Nat) (st : Store)
    (hwf : st.WF) (x y : Nat) (hx : st.stat_ns[k]? = some x)
    (hy : st.stat_cnt[k]? = some y) :
    ∃ st2, fib_read (k : Int) e st = some ((fibSpec k : Int), (k : Int), st2) ∧
      st2.WF ∧
      st2.stat_ns[k]? = some ((x + e) % 2 ^ 64) ∧
      st2.stat_cnt[k]? = some ((y + 1) % 2 ^ 32) ∧
      (∀ i : Nat, i ≠ k →
        st2.stat_ns[i]? = st.stat_ns[i]? ∧ st2.stat_cnt[i]? = st.stat_cnt[i]?) := by
  have hl1 : k < st.stat_ns.length := by have := hwf.1; omega
  have hl2 : k < st.stat_cnt.length := by have := hwf.2.1; omega
  have hr := fib_read_spec k hk e st hwf
  rw [getD_of_getElem? hx, getD_of_getElem? hy] at hr
  refine ⟨_, hr, set_set_WF st hwf _ _ _, List.getElem?_set_self hl1,
    List.getElem?_set_self hl2, ?_⟩
  intro i hi
  exact ⟨List.getElem?_set_ne (Ne.symm hi), List.getElem?_set_ne (Ne.symm hi)⟩

/-! ## Lemmas on the session gate and the transition system -/

theorem set_of_getElem? {α : Type} :
    ∀ (l : List α) (n : Nat) (a : α), l[n]? = some a → l.set n a = l := by
  intro l
  induction l with
  | nil => intro n a h; simp at h
  | cons x t ih =>
    intro n a h
    cases n with
    | zero =>
      simp only [List.getElem?_cons_zero, Option.some.injEq] at h
      rw [List.set_cons_zero, h]
    | succ k =>
      simp only [List.getElem?_cons_succ] at h
      rw [List.set_cons_succ, ih k a h]

theorem fib_open_held : fib_open true = (-EBUSY, true) := rfl

theorem fib_open_free : fib_open false = (0, true) := rfl

theorem step_open_held (s : Sys) (h : s.fib_mutex = true) :
    step s Op.sys_open = some (-EBUSY, s) := by
  cases s with
  | mk m st fs =>
    simp only at h
    subst h
    simp [step, fib_open_held, EBUSY]

theorem step_open_free (s : Sys) (h : s.fib_mutex = false) :
    step s Op.sys_open =
      some (0, { s with fib_mutex := true, files := s.files ++ [{ f_pos := 0 }] }) := by
  cases s with
  | mk m st fs =>
    simp only at h
    subst h
    simp [step, fib_open_free]

theorem files_of_inv {s : Sys} (h : SysInv s) :
    (s.fib_mutex = false ∧ s.files = []) ∨
    (s.fib_mutex = true ∧ ∃ c, s.files = [{ f_pos := c }] ∧ 0 ≤ c ∧ c ≤ 92) := by
  obtain ⟨hlen, hmx, hpos, _⟩ := h
  cases hfs : s.files with
  | nil =>
    left
    refine ⟨?_, rfl⟩
    cases hm : s.fib_mutex with
    | false => rfl
    | true =>
      have := hmx.1 hm
      rw [hfs] at this
      simp at this
  | cons f rest =>
    right
    rw [hfs] at hlen
    have hrest : rest = [] := by
      cases rest with
      | nil => rfl
      | cons g t => simp at hlen
    subst hrest
    refine ⟨hmx.2 (by rw [hfs]; rfl), f.f_pos, rfl, ?_⟩
    exact hpos f (by rw [hfs]; simp)

theorem SysInv_init : SysInv Sys.init := by
  refine ⟨by simp [Sys.init], by simp [Sys.init], ?_, Store.zero_WF⟩
  intro f hf
  simp [Sys.init] at hf

theorem SysInv_step {s s2 : Sys} {op : Op} {r : Int} (hinv : SysInv s)
    (hstep : step s op = some (r, s2)) : SysInv s2 := by
  have hwf : s.store.WF := hinv.2.2.2
  rcases files_of_inv hinv with ⟨hm, hfs⟩ | ⟨hm, c, hfs, hc0, hc92⟩
  · -- no session
    cases op with
    | sys_open =>
      rw [step_open_free s hm] at hstep
      simp only [Option.some.injEq, Prod.mk.injEq] at hstep
      rw [← hstep.2, hfs]
      refine ⟨by simp, by simp, ?_, hwf⟩
      intro f hf
      simp only [List.nil_append, List.mem_singleton] at hf
      subst hf
      exact ⟨le_refl _, by decide⟩
    | sys_close fd => simp [step, hfs] at hstep
    | sys_read fd ns => simp [step, hfs] at hstep
    | sys_pread fd ns pos => simp [step, hfs] at hstep
    | sys_write fd buf size => simp [step, hfs] at hstep
    | sys_lseek fd offset orig => simp [step, hfs] at hstep
    | sysfs_reset buf count =>
      by_cases hp : (linux_kstrtoint buf 10).1 = 0
      · simp only [step, reset_store_ok _ buf count _ hp hwf.1 hwf.2.1,
          Option.map_some', Option.some.injEq, Prod.mk.injEq] at hstep
        rw [← hstep.2]
        exact ⟨hinv.1, hinv.2.1, hinv.2.2.1, Store.zero_WF⟩
      · simp only [step, reset_store_fail _ buf count _ hp,
          Option.map_some', Option.some.injEq, Prod.mk.injEq] at hstep
        rw [← hstep.2]
        exact hinv
  · -- one session, at cursor `c`
    cases op with
    | sys_open =>
      rw [step_open_held s hm] at hstep
      simp only [Option.some.injEq, Prod.mk.injEq] at hstep
      rw [← hstep.2]
      exact hinv
    | sys_close fd =>
      by_cases hfd : fd < s.files.length
      · have hfd0 : fd = 0 := by rw [hfs] at hfd; simpa using hfd
        subst hfd0
        simp only [step, hfd, if_true, fib_release, mutex_unlock,
          Option.some.injEq, Prod.mk.injEq] at hstep
        rw [← hstep.2, hfs]
        refine ⟨by simp, by simp, ?_, hwf⟩
        intro f hf
        simp at hf
      · simp [step, hfd] at hstep
    | sys_read fd ns =>
      cases fd with
      | succ k => simp [step, hfs] at hstep
      | zero =>
        obtain ⟨st2, hread, hwf2⟩ := fib_read_defined c hc0 hc92 ns s.store hwf
        simp only [step, hfs, List.getElem?_cons_zero, Option.some_bind, hread,
          Option.map_some', Option.some.injEq, Prod.mk.injEq] at hstep
        rw [← hstep.2]
        refine ⟨by simp, by simp [hm], ?_, hwf2⟩
        intro f hf
        simp only [List.set_cons_zero, List.mem_singleton] at hf
        subst hf
        exact ⟨hc0, hc92⟩
    | sys_pread fd ns pos =>
      cases fd with
      | succ k => simp [step, hfs] at hstep
      | zero =>
        by_cases hneg : pos < 0
        · simp only [step, hfs, List.getElem?_cons_zero, Option.some_bind,
            hneg, if_true, Option.some.injEq, Prod.mk.injEq] at hstep
          rw [← hstep.2]
          exact hinv
        · cases hr : fib_read pos ns s.store with
          | none => simp [step, hfs, hneg, hr] at hstep
          | some p =>
            obtain ⟨h0, h92⟩ := fib_read_some_range hwf hr
            obtain ⟨st2, hread, hwf2⟩ :=
              fib_read_defined pos h0 h92 ns s.store hwf
            simp only [step, hfs, List.getElem?_cons_zero, Option.some_bind,
              hneg, if_false, hread, Option.map_some', Option.some.injEq,
              Prod.mk.injEq] at hstep
            rw [← hstep.2]
            refine ⟨by simp, by simp [hm], ?_, hwf2⟩
            intro f hf
            simp only [List.mem_singleton] at hf
            subst hf
            exact ⟨hc0, hc92⟩
    | sys_write fd buf size =>
      cases fd with
      | succ k => simp [step, hfs] at hstep
      | zero =>
        simp only [step, hfs, List.getElem?_cons_zero, Option.map_some',
          fib_write, Option.some.injEq, Prod.mk.injEq] at hstep
        rw [← hstep.2]
        refine ⟨by simp, by simp [hm], ?_, hwf⟩
        intro f hf
        simp only [List.set_cons_zero, List.mem_singleton] at hf
        subst hf
        exact ⟨hc0, hc92⟩
    | sys_lseek fd offset orig =>
      cases fd with
      | succ k => simp [step, hfs] at hstep
      | zero =>
        simp only [step, hfs, List.getElem?_cons_zero, Option.map_some',
          Option.some.injEq, Prod.mk.injEq] at hstep
        rw [← hstep.2]
        refine ⟨by simp, by simp [hm], ?_, hwf⟩
        intro f hf
        simp only [List.set_cons_zero, List.mem_singleton] at hf
        subst hf
        have hr := fib_device_lseek_range { f_pos := c } offset orig
        rw [hr.2.2]
        exact ⟨hr.1, hr.2.1⟩
    | sysfs_reset buf count =>
      by_cases hp : (linux_kstrtoint buf 10).1 = 0
      · simp only [step, reset_store_ok _ buf count _ hp hwf.1 hwf.2.1,
          Option.map_some', Option.some.injEq, Prod.mk.injEq] at hstep
        rw [← hstep.2]
        exact ⟨hinv.1, hinv.2.1, hinv.2.2.1, Store.zero_WF⟩
      · simp only [step, reset_store_fail _ buf count _ hp,
          Option.map_some', Option.some.injEq, Prod.mk.injEq] at hstep
        rw [← hstep.2]
        exact hinv

theorem SysInv_of_reachable {s : Sys} (h : Reachable s) : SysInv s := by
  induction h with
  | init => exact SysInv_init
  | step _ hstep ih => exact SysInv_step ih hstep


/-! ## Lemmas on runs and on the invariant of the statistics entries -/

/-- What one served request does to the store: nothing, a reset to zero, or
one read at a cursor of `0 .. 92`. -/
theorem step_store_cases {s s2 : Sys} {op : Op} {r : Int} (hinv : SysInv s)
    (hstep : step s op = some (r, s2)) :
    s2.store = s.store ∨ s2.store = Store.zero ∨
    ∃ (k e : Nat) (r2 : Int), k ≤ 92 ∧
      fib_read (k : Int) e s.store = some (r2, (k : Int), s2.store) := by
  have hwf : s.store.WF := hinv.2.2.2
  cases op with
  | sys_open =>
    left
    cases hm : s.fib_mutex with
    | true =>
      rw [step_open_held s hm] at hstep
      simp only [Option.some.injEq, Prod.mk.injEq] at hstep
      rw [← hstep.2]
    | false =>
      rw [step_open_free s hm] at hstep
      simp only [Option.some.injEq, Prod.mk.injEq] at hstep
      rw [← hstep.2]
  | sys_close fd =>
    left
    by_cases hfd : fd < s.files.length
    · simp only [step, hfd, if_true, Option.some.injEq, Prod.mk.injEq] at hstep
      rw [← hstep.2]
    · simp [step, hfd] at hstep
  | sys_read fd ns =>
    right; right
    cases hf : s.files[fd]? with
    | none => simp [step, hf] at hstep
    | some f =>
      obtain ⟨h0, h92⟩ := hinv.2.2.1 f (List.getElem?_mem hf)
      obtain ⟨k, hk⟩ := Int.eq_ofNat_of_zero_le h0
      obtain ⟨st2, hread, _⟩ := fib_read_defined f.f_pos h0 h92 ns s.store hwf
      simp only [step, hf, Option.some_bind, hread, Option.map_some',
        Option.some.injEq, Prod.mk.injEq] at hstep
      refine ⟨k, ns, (fibSpec f.f_pos.toNat : Int), by omega, ?_⟩
      rw [← hstep.2, ← hk]
      exact hread
  | sys_pread fd ns pos =>
    cases hf : s.files[fd]? with
    | none => simp [step, hf] at hstep
    | some f =>
      by_cases hneg : pos < 0
      · left
        simp only [step, hf, Option.some_bind, hneg, if_true,
          Option.some.injEq, Prod.mk.injEq] at hstep
        rw [← hstep.2]
      · right; right
        cases hr : fib_read pos ns s.store with
        | none => simp [step, hf, hneg, hr] at hstep
        | some p =>
          obtain ⟨h0, h92⟩ := fib_read_some_range hwf hr
          obtain ⟨k, hk⟩ := Int.eq_ofNat_of_zero_le h0
          obtain ⟨st2, hread, _⟩ := fib_read_defined pos h0 h92 ns s.store hwf
          simp only [step, hf, Option.some_bind, hneg, if_false, hread,
            Option.map_some', Option.some.injEq, Prod.mk.injEq] at hstep
          refine ⟨k, ns, (fibSpec pos.toNat : Int), by omega, ?_⟩
          rw [← hstep.2, ← hk]
          exact hread
  | sys_write fd buf size =>
    left
    cases hf : s.files[fd]? with
    | none => simp [step, hf] at hstep
    | some f =>
      simp only [step, hf, Option.map_some', Option.some.injEq,
        Prod.mk.injEq] at hstep
      rw [← hstep.2]
  | sys_lseek fd offset orig =>
    left
    cases hf : s.files[fd]? with
    | none => simp [step, hf] at hstep
    | some f =>
      simp only [step, hf, Option.map_some', Option.some.injEq,
        Prod.mk.injEq] at hstep
      rw [← hstep.2]
  | sysfs_reset buf count =>
    by_cases hp : (linux_kstrtoint buf 10).1 = 0
    · right; left
      simp only [step, reset_store_ok _ buf count _ hp hwf.1 hwf.2.1,
        Option.map_some', Option.some.injEq, Prod.mk.injEq] at hstep
      rw [← hstep.2]
    · left
      simp only [step, reset_store_fail _ buf count _ hp,
        Option.map_some', Option.some.injEq, Prod.mk.injEq] at hstep
      rw [← hstep.2]

theorem reachable_of_run :
    ∀ (ops : List Op) (s s2 : Sys), Reachable s → run s ops = some s2 →
      Reachable s2 := by
  intro ops
  induction ops with
  | nil =>
    intro s s2 hr h
    simp only [run, Option.some.injEq] at h
    rw [← h]; exact hr
  | cons op ops ih =>
    intro s s2 hr h
    cases hs : step s op with
    | none => simp [run, hs] at h
    | some p =>
      simp only [run, hs, Option.some_bind] at h
      exact ih p.2 s2 (Reachable.step hr (show step s op = some (p.1, p.2) from hs)) h

theorem StatInv_zero : StatInv Store.zero := by
  intro i hi _
  have := (Store.zero_getElem? i hi).1
  simp [this]

/-- Every count of the store is at most `n`. -/
theorem cnt_bound_zero (n i : Nat) (hi : i ≤ 92) :
    Store.zero.stat_cnt.getD i 0 ≤ n := by
  have := (Store.zero_getElem? i hi).2
  simp [this]

/-- A read that does not wrap the count keeps the invariant and raises the
counts by at most 1. -/
theorem StatInv_read {st st2 : Store} {k e n : Nat} {r r2 : Int}
    (hk : k ≤ 92) (hwf : st.WF) (hinv : StatInv st)
    (hb : ∀ i : Nat, i ≤ 92 → st.stat_cnt.getD i 0 ≤ n)
    (hn : st.stat_cnt.getD k 0 + 1 < 2 ^ 32)
    (hread : fib_read (k : Int) e st = some (r, r2, st2)) :
    StatInv st2 ∧ ∀ i : Nat, i ≤ 92 → st2.stat_cnt.getD i 0 ≤ n + 1 := by
  have hl1 : k < st.stat_ns.length := by have := hwf.1; omega
  have hl2 : k < st.stat_cnt.length := by have := hwf.2.1; omega
  obtain ⟨st3, hr3, _, _, hcnt, hframe⟩ :=
    fib_read_entry k hk e st hwf _ _ (getElem?_of_lt_getD hl1)
      (getElem?_of_lt_getD hl2)
  rw [hr3] at hread
  simp only [Option.some.injEq, Prod.mk.injEq] at hread
  obtain ⟨_, _, hst⟩ := hread
  subst hst
  have hck : st3.stat_cnt.getD k 0 = st.stat_cnt.getD k 0 + 1 := by
    rw [getD_of_getElem? hcnt, Nat.mod_eq_of_lt hn]
  constructor
  · intro i hi hzero
    by_cases hik : i = k
    · subst hik
      rw [hck] at hzero
      omega
    · have hf := hframe i hik
      have h1 : st3.stat_cnt.getD i 0 = st.stat_cnt.getD i 0 := by simp [hf.2]
      have h2 : st3.stat_ns.getD i 0 = st.stat_ns.getD i 0 := by simp [hf.1]
      rw [h2]
      exact hinv i hi (by rw [← h1]; exact hzero)
  · intro i hi
    by_cases hik : i = k
    · subst hik
      rw [hck]
      have := hb i hi
      omega
    · have hf := hframe i hik
      have h1 : st3.stat_cnt.getD i 0 = st.stat_cnt.getD i 0 := by simp [hf.2]
      rw [h1]
      have := hb i hi
      omega

/-- Runs shorter than `2^32` requests keep the invariant of the entries. -/
theorem StatInv_run :
    ∀ (ops : List Op) (s s2 : Sys) (n : Nat), SysInv s → StatInv s.store →
      (∀ i : Nat, i ≤ 92 → s.store.stat_cnt.getD i 0 ≤ n) →
      n + ops.length < 2 ^ 32 → run s ops = some s2 →
      StatInv s2.store := by
  intro ops
  induction ops with
  | nil =>
    intro s s2 n _ hinv _ _ h
    simp only [run, Option.some.injEq] at h
    rw [← h]; exact hinv
  | cons op ops ih =>
    intro s s2 n hsys hinv hb hlen h
    simp only [List.length_cons] at hlen
    cases hs : step s op with
    | none => simp [run, hs] at h
    | some p =>
      simp only [run, hs, Option.some_bind] at h
      have hstep : step s op = some (p.1, p.2) := hs
      have hsys2 := SysInv_step hsys hstep
      have key : StatInv p.2.store ∧
          ∀ i : Nat, i ≤ 92 → p.2.store.stat_cnt.getD i 0 ≤ n + 1 := by
        rcases step_store_cases hsys hstep with h1 | h1 | ⟨k, e, r2, hk, hread⟩
        · rw [h1]
          exact ⟨hinv, fun i hi => Nat.le_succ_of_le (hb i hi)⟩
        · rw [h1]
          exact ⟨StatInv_zero, fun i hi => cnt_bound_zero _ i hi⟩
        · have := hb k hk
          exact StatInv_read hk hsys.2.2.2 hinv hb (by omega) hread
      exact ih p.2 s2 (n + 1) hsys2 key.1 key.2 (by omega) h

/-- After `n` reads at cursor 0 with elapsed time `e` each, the state is
reachable, with the count `n mod 2^32` and the time `n * e mod 2^64`. -/
theorem reads_reachable (e : Nat) :
    ∀ n : Nat, Reachable
      { fib_mutex := true,
        store := { stat_ns := (n * e % 2 ^ 64) :: List.replicate 92 0,
                   stat_cnt := (n % 2 ^ 32) :: List.replicate 92 0 },
        files := [{ f_pos := 0 }] } := by
  intro n
  induction n with
  | zero =>
    have hz : ({ stat_ns := (0 * e % 2 ^ 64) :: List.replicate 92 0,
                 stat_cnt := (0 % 2 ^ 32) :: List.replicate 92 0 } : Store)
        = Store.zero := by
      rw [Nat.zero_mul]; rfl
    have h1 : step Sys.init Op.sys_open
        = some (0, { fib_mutex := true, store := Store.zero,
                     files := [{ f_pos := 0 }] }) := rfl
    rw [hz]
    exact Reachable.step Reachable.init h1
  | succ n ih =>
    have hwf := (SysInv_of_reachable ih).2.2.2
    have hread := fib_read_spec 0 (by decide) e _ hwf
    have harith : (n * e % 2 ^ 64 + e) % 2 ^ 64 = (n + 1) * e % 2 ^ 64 := by
      rw [Nat.add_mul, Nat.one_mul]
      omega
    have harith2 : (n % 2 ^ 32 + 1) % 2 ^ 32 = (n + 1) % 2 ^ 32 := by omega
    simp only [List.getD_cons_zero, List.set_cons_zero, harith, harith2]
      at hread
    refine @Reachable.step _ _ (Op.sys_read 0 e) (fibSpec 0 : Int) ih ?_
    simp only [step, List.getElem?_cons_zero, Option.some_bind]
    rw [show ((0 : Int) = ((0 : Nat) : Int)) from rfl, hread]
    rfl

/-! ## Lemmas on `result_show` -/

theorem toDigitsCore_length_le (k : Nat) :
    ∀ (fuel n : Nat) (ds : List Char), n < 10 ^ (k + 1) →
      (Nat.toDigitsCore 10 fuel n ds).length ≤ k + 1 + ds.length := by
  induction k with
  | zero =>
    intro fuel n ds hn
    cases fuel with
    | zero => simp [Nat.toDigitsCore]
    | succ f =>
      have h0 : n / 10 = 0 := by omega
      simp [Nat.toDigitsCore, h0]
      omega
  | succ k ih =>
    intro fuel n ds hn
    cases fuel with
    | zero => simp [Nat.toDigitsCore]
    | succ f =>
      by_cases h0 : n / 10 = 0
      · simp [Nat.toDigitsCore, h0]
        omega
      · have hlt : n / 10 < 10 ^ (k + 1) := by
          have h10 : (10 : Nat) ^ (k + 1 + 1) = 10 ^ (k + 1) * 10 := pow_succ 10 (k + 1)
          rw [h10] at hn
          exact Nat.div_lt_of_lt_mul (by rw [Nat.mul_comm]; exact hn)
        have := ih f (n / 10) ((n % 10).digitChar :: ds) hlt
        simp only [Nat.toDigitsCore, h0, if_false]
        simp only [List.length_cons] at this
        omega

theorem dec_length_le (k n : Nat) (hn : n < 10 ^ (k + 1)) :
    (dec n).length ≤ k + 1 := by
  have := toDigitsCore_length_le k (n + 1) n [] hn
  simpa [dec, Nat.toDigits] using this

theorem stat_line_length (i ns cnt : Nat) :
    (stat_line (i : Int) ns cnt).length
      = (dec i).length + (dec ns).length + (dec cnt).length + 6 := by
  have hi : ¬ ((i : Int) < 0) := by omega
  simp [stat_line, dec_int, hi]
  omega

theorem stat_line_length_le (i ns cnt : Nat) (hi : i ≤ 92) (hns : ns < 2 ^ 64)
    (hcnt : cnt < 2 ^ 32) :
    (stat_line (i : Int) ns cnt).length ≤ 38 ∧
    (i ≤ 9 → (stat_line (i : Int) ns cnt).length ≤ 37) := by
  have h1 := dec_length_le 1 i (by omega)
  have h2 := dec_length_le 19 ns (by omega)
  have h3 := dec_length_le 9 cnt (by omega)
  rw [stat_line_length]
  refine ⟨by omega, ?_⟩
  intro h9
  have h4 := dec_length_le 0 i (by omega)
  omega

/-- A call of `snprintf` whose text fits: the text and a NUL are stored at
`pos`, nothing before `pos` changes, and the page keeps its size. -/
theorem snprintf_fits (buf : List Char) (pos size : Nat) (text : List Char)
    (hsize : size ≤ 2147483647) (hfit : text.length + 1 ≤ size)
    (hpage : pos + text.length + 1 ≤ buf.length) :
    ∃ buf2, snprintf buf pos size text = some (text.length, buf2) ∧
      buf2.length = buf.length ∧
      buf2.take (pos + text.length) = buf.take pos ++ text := by
  have h1 : ¬ (2147483647 < size) := by omega
  have h2 : ¬ (size = 0) := by omega
  have htake : text.take (size - 1) = text := List.take_of_length_le (by omega)
  have hw : pos + (text ++ [Char.ofNat 0]).length ≤ buf.length := by
    simp only [List.length_append, List.length_singleton]; omega
  refine ⟨buf.take pos ++ (text ++ [Char.ofNat 0])
      ++ buf.drop (pos + (text ++ [Char.ofNat 0]).length), ?_, ?_, ?_⟩
  · simp only [snprintf, h1, h2, if_false, htake, hw, if_true]
  · simp only [List.length_append, List.length_take, List.length_drop,
      List.length_singleton]
    omega
  · have hlen : (buf.take pos ++ text).length = pos + text.length := by
      simp only [List.length_append, List.length_take]
      omega
    rw [List.append_assoc, List.append_assoc, ← List.append_assoc (buf.take pos)]
    rw [← hlen]
    exact List.take_left _ _

theorem shown_indexes_succ (st : Store) (j : Nat) :
    shown_indexes st (j + 1)
      = shown_indexes st j ++ (if st.stat_cnt.getD j 0 = 0 then [] else [j]) := by
  unfold shown_indexes
  rw [List.range_succ, List.filter_append]
  by_cases h : st.stat_cnt.getD j 0 = 0
  · rw [if_pos h, List.filter_cons_of_neg (by simp only [h, ne_eq, not_true_eq_false, decide_False]; exact Bool.false_ne_true)]
    rfl
  · rw [if_neg h, List.filter_cons_of_pos (by simp only [ne_eq, h, not_false_eq_true, decide_True])]
    rfl

theorem listing_succ_zero (st : Store) (j : Nat) (h : st.stat_cnt.getD j 0 = 0) :
    listing st (j + 1) = listing st j := by
  unfold listing
  rw [shown_indexes_succ, if_pos h, List.append_nil]

theorem listing_succ_pos (st : Store) (j : Nat) (h : st.stat_cnt.getD j 0 ≠ 0) :
    listing st (j + 1) = listing st j
      ++ stat_line (j : Int) (st.stat_ns.getD j 0) (st.stat_cnt.getD j 0) := by
  unfold listing
  rw [shown_indexes_succ, if_neg h, List.flatMap_append]
  simp only [List.flatMap_cons, List.flatMap_nil, List.append_nil]
theorem show_bound_keep (len j : Nat) (h : len ≤ 38 * j - min j 10) :
    len ≤ 38 * (j + 1) - min (j + 1) 10 := by
  omega

theorem show_bound_step (len j a : Nat) (h : len ≤ 38 * j - min j 10)
    (ha : a ≤ 38) (ha9 : j ≤ 9 → a ≤ 37) :
    len + a ≤ 38 * (j + 1) - min (j + 1) 10 := by
  omega

theorem show_bound_len (len j : Nat) (h : len ≤ 38 * j - min j 10)
    (hj : j ≤ 92) : len ≤ 3496 := by
  omega

theorem show_idx (j n : Nat) (h : j + (n + 1) = 93) :
    j ≤ 92 ∧ j + 1 + n = 93 := by
  omega

theorem show_arith (limit len a : Nat) (hlo : 3535 ≤ limit)
    (hhi : limit ≤ 2147483647) (hl : len ≤ 3496) (ha : a ≤ 38) :
    len < limit ∧ (limit + 2 ^ 64 - len) % 2 ^ 64 = limit - len ∧
    a + 1 ≤ limit - len ∧ len + a + 1 ≤ limit ∧
    (len + a) % 2 ^ 64 = len + a ∧ ¬ (limit ≤ len + a) := by
  omega

theorem show_loop_spec (P limit : Nat) (st : Store) (hwf : st.WF)
    (hlo : 3535 ≤ limit) (hhi : limit ≤ 2147483647) (hP : limit ≤ P) :
    ∀ (n j : Nat) (r : ShowRun), j + n = 93 → ShowInv P st j r →
      ∃ r2, show_loop limit st n (j : Int) r = some r2 ∧ ShowInv P st 93 r2 := by
  intro n
  induction n with
  | zero =>
    intro j r hj hinv
    have h93 : j = 93 := hj
    subst h93
    have hg : ¬ (((93 : Nat) : Int) ≤ MAX_LENGTH ∧ r.len < limit) := by
      intro h
      exact absurd h.1 (by decide)
    exact ⟨r, by simp only [show_loop, hg, if_false], hinv⟩
  | succ n ih =>
    intro j r hj hinv
    obtain ⟨hbuf, hlen, htake, hbound, hcut, hmark⟩ := hinv
    obtain ⟨hj92, hj1⟩ := show_idx j n hj
    have hl3496 := show_bound_len r.len j hbound hj92
    have hl1 : j < st.stat_ns.length := by rw [hwf.1]; exact Nat.lt_succ_of_le hj92
    have hl2 : j < st.stat_cnt.length := by rw [hwf.2.1]; exact Nat.lt_succ_of_le hj92
    have hjz : (j : Int) ≤ MAX_LENGTH := by
      unfold MAX_LENGTH; exact_mod_cast hj92
    have hinc : wrap32 ((j : Int) + 1) = ((j + 1 : Nat) : Int) := by
      rw [wrap32_of_small (by omega) (by omega)]; push_cast; rfl
    by_cases hc : st.stat_cnt.getD j 0 = 0
    · have hlt : r.len < limit := (show_arith limit r.len 0 hlo hhi hl3496 (by decide)).1
      have hinv2 : ShowInv P st (j + 1) r := by
        refine ⟨hbuf, ?_, ?_, show_bound_keep r.len j hbound, hcut, hmark⟩
        · rw [listing_succ_zero st j hc]; exact hlen
        · rw [listing_succ_zero st j hc]; exact htake
      obtain ⟨r2, hrun, hfin⟩ := ih (j + 1) r hj1 hinv2
      refine ⟨r2, ?_, hfin⟩
      simp only [show_loop, hjz, hlt, and_self, if_true, u_load_of_lt hl2,
        Option.some_bind, hc, hinc]
      exact hrun
    · have hns : st.stat_ns.getD j 0 < 2 ^ 64 :=
        hwf.2.2.1 _ (List.getElem?_mem (getElem?_of_lt_getD hl1))
      have hcn : st.stat_cnt.getD j 0 < 2 ^ 32 :=
        hwf.2.2.2 _ (List.getElem?_mem (getElem?_of_lt_getD hl2))
      obtain ⟨hline, hline9⟩ := stat_line_length_le j _ _ hj92 hns hcn
      obtain ⟨hlt, hsz, hfit, hpage, hnew, hnocut⟩ := show_arith limit r.len
        (stat_line (j : Int) (st.stat_ns.getD j 0) (st.stat_cnt.getD j 0)).length
        hlo hhi hl3496 hline
      obtain ⟨buf2, hsn, hb2, ht2⟩ := snprintf_fits r.buf r.len (limit - r.len)
        (stat_line (j : Int) (st.stat_ns.getD j 0) (st.stat_cnt.getD j 0))
        (Nat.le_trans (Nat.sub_le _ _) hhi) hfit
        (by rw [hbuf]; exact Nat.le_trans hpage hP)
      have hinv2 : ShowInv P st (j + 1)
          { r with buf := buf2,
                   len := r.len + (stat_line (j : Int) (st.stat_ns.getD j 0)
                     (st.stat_cnt.getD j 0)).length,
                   cut := r.cut } := by
        refine ⟨?_, ?_, ?_, show_bound_step r.len j _ hbound hline hline9,
          hcut, hmark⟩
        · show buf2.length = P
          rw [hb2]; exact hbuf
        · show r.len + _ = _
          rw [listing_succ_pos st j hc, List.length_append, hlen]
        · show buf2.take (r.len + _) = _
          rw [listing_succ_pos st j hc, ht2, htake]
      obtain ⟨r2, hrun, hfin⟩ := ih (j + 1) _ hj1 hinv2
      refine ⟨r2, ?_, hfin⟩
      simp only [show_loop, hjz, hlt, and_self, if_true, u_load_of_lt hl2,
        u_load_of_lt hl1, Option.some_bind, hc, if_false, hsz, hsn, hnew,
        hinc, hnocut, decide_False, Bool.or_false]
      exact hrun

theorem show_final (P len : Nat) (hlo : 4096 ≤ P) (hhi : P ≤ 2 ^ 31)
    (hl : len ≤ 38 * 93 - min 93 10) :
    (P + 2 ^ 64 - 32) % 2 ^ 64 = P - 32 ∧ 3535 ≤ P - 32 ∧
    P - 32 ≤ 2147483647 ∧ P - 32 ≤ P ∧ ¬ (P - 32 ≤ len) ∧ len ≤ 3524 ∧
    inS64 (len : Int) := by
  unfold inS64
  omega

/-- The run of `result_show` on a page of at least 4096 bytes. -/
theorem result_show_spec (PAGE_SIZE : Nat) (st : Store) (buf : List Char)
    (hwf : st.WF) (hbuf : buf.length = PAGE_SIZE) (hlo : 4096 ≤ PAGE_SIZE)
    (hhi : PAGE_SIZE ≤ 2 ^ 31) :
    ∃ r, result_show PAGE_SIZE st buf = some (((listing st 93).length : Int), r) ∧
      ShowInv PAGE_SIZE st 93 r := by
  have hinv0 : ShowInv PAGE_SIZE st 0
      { buf := buf, len := 0, cut := false, marker := false } :=
    ⟨hbuf, rfl, rfl, Nat.zero_le _, rfl, rfl⟩
  obtain ⟨hlim, h1, h2, h3, _⟩ := show_final PAGE_SIZE 0 hlo hhi (Nat.zero_le _)
  obtain ⟨r, hrun, hfin⟩ := show_loop_spec PAGE_SIZE (PAGE_SIZE - 32) st hwf
    h1 h2 h3 93 0 _ rfl hinv0
  obtain ⟨_, _, _, _, hno, _, hs64⟩ :=
    show_final PAGE_SIZE r.len hlo hhi hfin.2.2.2.1
  refine ⟨r, ?_, hfin⟩
  simp only [result_show, hlim]
  rw [show ((0 : Int) = ((0 : Nat) : Int)) from rfl, hrun, Option.some_bind,
    if_neg hno, wrap64_of_inS64 hs64, hfin.2.1]

/-- The listing of the store with every time `2^64 - 1` and every count
`2^32 - 1` is 3524 bytes long. -/
theorem listing_full_length :
    (listing { stat_ns := List.replicate 93 18446744073709551615,
               stat_cnt := List.replicate 93 4294967295 } 93).length = 3524 := by
  decide!
/-! ## Verified properties -/

/-- C1: for every index `k` with `0 ≤ k ≤ 92`, `fib_sequence k` returns
exactly the `k`-th Fibonacci number of the recurrence `F(0)=0`, `F(1)=1`,
`F(i)=F(i-1)+F(i-2)`, as a mathematical integer and not a wrapped value; in
particular `fib_sequence 0 = 0`, `fib_sequence 1 = 1`, `fib_sequence 10 = 55`. -/
theorem fib_sequence_correct (k : Int) (h0 : 0 ≤ k) (h92 : k ≤ 92) :
    fib_sequence k = some (fibSpec k.toNat : Int) ∧
    fib_sequence 0 = some 0 ∧ fib_sequence 1 = some 1 ∧
    fib_sequence 10 = some 55 := by
  obtain ⟨n, rfl⟩ := Int.eq_ofNat_of_zero_le h0
  have hn : n ≤ 92 := by omega
  refine ⟨by simpa using fib_sequence_exact n hn, ?_, ?_, ?_⟩
  · exact fib_sequence_exact 0 (by decide)
  · exact fib_sequence_exact 1 (by decide)
  · exact fib_sequence_exact 10 (by decide)

/-- Witness of C1 at the largest index: `fib_sequence 92` is
`F(92) = 7540113804746346429`. -/
theorem fib_sequence_correct_witness :
    (0 : Int) ≤ 92 ∧ (92 : Int) ≤ 92 ∧
    fib_sequence 92 = some (fibSpec (92 : Int).toNat : Int) ∧
    fibSpec (92 : Int).toNat = 7540113804746346429 :=
  ⟨by decide, by decide, (fib_sequence_correct 92 (by decide) (by decide)).1,
    fibSpec_92⟩

/-- C2: `MAX_LENGTH = 92` is the largest index whose Fibonacci number fits a
signed 64-bit integer: `F(92) ≤ 2^63 - 1`, `F(n) ≤ 2^63 - 1` exactly for
`n ≤ 92`, no sum `f[i-1] + f[i-2]` of a run of `fib_sequence k` with
`0 ≤ k ≤ 92` leaves the signed 64-bit range, and `F(93) > 2^63 - 1`, so that
the run of `fib_sequence 93` overflows and its result, computed with
wrap-around, is not `F(93)`. -/
theorem max_length_is_largest_index :
    MAX_LENGTH = 92 ∧
    (fibSpec 92 : Int) ≤ 2 ^ 63 - 1 ∧
    (∀ n : Nat, (fibSpec n : Int) ≤ 2 ^ 63 - 1 ↔ (n : Int) ≤ MAX_LENGTH) ∧
    (∀ k : Int, 0 ≤ k → k ≤ MAX_LENGTH →
      ∃ r s, fib_sequence_run k = some (r, s) ∧ s.overflow = false) ∧
    (fibSpec 93 : Int) > 2 ^ 63 - 1 ∧
    (fib_sequence_run 93).map (fun p => p.2.overflow) = some true ∧
    fib_sequence 93 = some (-6246583658587674878) ∧
    fib_sequence 93 ≠ some (fibSpec 93 : Int) := by
  have h93 : fib_sequence 93 = some (-6246583658587674878) := by
    have h := fib_sequence_spec 93 (by decide)
    rw [fibSpec_93] at h
    exact h
  refine ⟨rfl, ?_, ?_, ?_, ?_, fib_sequence_run_93_overflow, h93, ?_⟩
  · rw [fibSpec_92]; decide
  · intro n
    unfold MAX_LENGTH
    constructor
    · intro h
      by_contra hn
      have h1 : fibSpec 93 ≤ fibSpec n := fibSpec_mono (by omega)
      rw [fibSpec_93] at h1
      omega
    · intro h
      have h1 : fibSpec n ≤ fibSpec 92 := fibSpec_mono (by omega)
      rw [fibSpec_92] at h1
      omega
  · intro k h0 h92
    unfold MAX_LENGTH at h92
    obtain ⟨n, rfl⟩ := Int.eq_ofNat_of_zero_le h0
    obtain ⟨s, hrun, _, hov, _⟩ := fib_sequence_run_spec n (by omega)
    exact ⟨_, s, hrun, hov h92⟩
  · rw [fibSpec_93]; decide
  · rw [h93, fibSpec_93]; decide

/-- Witness of C2: the run of `fib_sequence 92` sees no overflow. -/
theorem max_length_is_largest_index_witness :
    ∃ r s, fib_sequence_run 92 = some (r, s) ∧ s.overflow = false :=
  max_length_is_largest_index.2.2.2.1 92 (by decide) (by decide)

/-- C3 (counterexample): with the cursor at 92, a seek from the current
position by `2^63 - 1` returns 0 and a seek from the end by `-2^63` returns 0,
although the mathematical targets `92 + (2^63 - 1)` and `92 - (-2^63)` clamp
to 92: the 64-bit sums wrap before the clamp. -/
theorem fib_device_lseek_wraps :
    inS64 9223372036854775807 ∧
    fib_device_lseek { f_pos := 92 } 9223372036854775807 1
      = (0, { f_pos := 0 }) ∧
    clamp (seekTarget 92 9223372036854775807 1) = 92 ∧
    inS64 (-9223372036854775808) ∧
    fib_device_lseek { f_pos := 92 } (-9223372036854775808) 2
      = (0, { f_pos := 0 }) ∧
    clamp (seekTarget 92 (-9223372036854775808) 2) = 92 := by
  decide

/-- C3 (amended): for every cursor `c` (in particular in `0 .. 92`), every
signed 64-bit offset and each origin 0 (start), 1 (current), 2 (end),
`fib_device_lseek` returns `max(0, min(n, 92))` and stores that same value as
the new cursor, where `n` is the requested position `offset`, `c + offset` or
`92 - offset` reduced to the signed 64-bit range; `n` is the mathematical
position whenever that position fits the signed 64-bit range.  For example a
seek to -5 from the start gives 0, to 1000 from the start gives 92, and by 0
from the end gives 92. -/
theorem fib_device_lseek_clamps (c offset orig : Int) (hoff : inS64 offset)
    (horig : orig = 0 ∨ orig = 1 ∨ orig = 2) :
    fib_device_lseek { f_pos := c } offset orig
      = (clamp (wrap64 (seekTarget c offset orig)),
         { f_pos := clamp (wrap64 (seekTarget c offset orig)) }) ∧
    (inS64 (seekTarget c offset orig) →
      fib_device_lseek { f_pos := c } offset orig
        = (clamp (seekTarget c offset orig),
           { f_pos := clamp (seekTarget c offset orig) })) ∧
    fib_device_lseek { f_pos := c } (-5) 0 = (0, { f_pos := 0 }) ∧
    fib_device_lseek { f_pos := c } 1000 0 = (92, { f_pos := 92 }) ∧
    fib_device_lseek { f_pos := c } 0 2 = (92, { f_pos := 92 }) := by
  have hmain : fib_device_lseek { f_pos := c } offset orig
      = (clamp (wrap64 (seekTarget c offset orig)),
         { f_pos := clamp (wrap64 (seekTarget c offset orig)) }) := by
    rw [fib_device_lseek_eq]
    rcases horig with h | h | h
    · subst h
      simp [seekTarget, wrap64_of_inS64 hoff]
    · subst h
      simp [seekTarget]
    · subst h
      simp [seekTarget]
  refine ⟨hmain, ?_, ?_, ?_, ?_⟩
  · intro h
    rw [hmain, wrap64_of_inS64 h]
  · have h : clamp (-5) = 0 := by decide
    simp [fib_device_lseek_eq, h]
  · have h : clamp 1000 = 92 := by decide
    simp [fib_device_lseek_eq, h]
  · have h : clamp (wrap64 92) = 92 := by decide
    simp [fib_device_lseek_eq, h]

/-- Witness of C3 (amended): cursor 40, seek by 100 from the current
position. -/
theorem fib_device_lseek_clamps_witness :
    inS64 100 ∧
    fib_device_lseek { f_pos := 40 } 100 1
      = (clamp (wrap64 (seekTarget 40 100 1)),
         { f_pos := clamp (wrap64 (seekTarget 40 100 1)) }) ∧
    clamp (wrap64 (seekTarget 40 100 1)) = 92 :=
  ⟨by decide,
    (fib_device_lseek_clamps 40 100 1 (by decide) (Or.inr (Or.inl rfl))).1,
    by decide⟩

/-- C4 (code defect): the cursor does stay in `0 .. 92` in every reachable
state (it is 0 after an open, `fib_device_lseek` clamps it for every origin
and offset, reads and writes leave it), and a read at the cursor is in the
domain.  But `fib_read` takes its index from `*offset`, never from the
cursor, and checks nothing, unlike `fib_device_lseek`: in the state after one
open, with the cursor at 0, a positional read at 93 makes `fib_read` compute
`fib_sequence 93`, which overflows, and index the statistics arrays at 93,
outside their 93 entries, so the request has undefined behaviour; a
positional read at 10 returns 55. -/
theorem fib_read_outside_domain :
    Reachable { fib_mutex := true, store := Store.zero, files := [{ f_pos := 0 }] } ∧
    fib_sequence 93 = some (-6246583658587674878) ∧
    (fib_sequence_run 93).map (fun p => p.2.overflow) = some true ∧
    u_load Store.zero.stat_ns 93 = none ∧
    u_load Store.zero.stat_cnt 93 = none ∧
    (∀ ns : Nat, fib_read 93 ns Store.zero = none) ∧
    (∀ ns : Nat,
      step { fib_mutex := true, store := Store.zero, files := [{ f_pos := 0 }] }
        (Op.sys_pread 0 ns 93) = none) ∧
    (step { fib_mutex := true, store := Store.zero, files := [{ f_pos := 0 }] }
        (Op.sys_pread 0 7 10)).map Prod.fst = some 55 ∧
    (∀ (file : File) (offset orig : Int),
      0 ≤ (fib_device_lseek file offset orig).1 ∧
      (fib_device_lseek file offset orig).1 ≤ 92 ∧
      (fib_device_lseek file offset orig).2.f_pos
        = (fib_device_lseek file offset orig).1) ∧
    (∀ s : Sys, Reachable s → ∀ f ∈ s.files, 0 ≤ f.f_pos ∧ f.f_pos ≤ 92) ∧
    (∀ s : Sys, Reachable s → ∀ (fd : Nat) (f : File), s.files[fd]? = some f →
      ∀ ns : Nat, ∃ r st2 s2, fib_sequence f.f_pos = some r ∧
        fib_read f.f_pos ns s.store = some (r, f.f_pos, st2) ∧
        step s (Op.sys_read fd ns) = some (r, s2) ∧ s2.files = s.files) := by
  have h1 : step Sys.init Op.sys_open
      = some (0, { fib_mutex := true, store := Store.zero,
                   files := [{ f_pos := 0 }] }) := rfl
  have h93 : fib_sequence 93 = some (-6246583658587674878) := by
    have h := fib_sequence_spec 93 (by decide)
    rw [fibSpec_93] at h
    exact h
  have hns : u_load Store.zero.stat_ns 93 = none := by
    simp [u_load, Store.zero]
  have hcnt : u_load Store.zero.stat_cnt 93 = none := by
    simp [u_load, Store.zero]
  refine ⟨Reachable.step Reachable.init h1, h93, fib_sequence_run_93_overflow,
    hns, hcnt, fib_read_unchecked, ?_, ?_, fib_device_lseek_range, ?_, ?_⟩
  · intro ns
    have hpos : ¬ ((93 : Int) < 0) := by decide
    simp only [step, List.getElem?_cons_zero, Option.some_bind, hpos, if_false,
      fib_read_unchecked ns, Option.map_none']
  · have hread := fib_read_spec 10 (by decide) 7 Store.zero Store.zero_WF
    have hpos : ¬ ((10 : Int) < 0) := by decide
    have hcast : ((10 : Nat) : Int) = 10 := rfl
    rw [hcast] at hread
    simp only [step, List.getElem?_cons_zero, Option.some_bind, hpos, if_false,
      hread, Option.map_some']
    rfl
  · intro s hs f hf
    exact (SysInv_of_reachable hs).2.2.1 f hf
  · intro s hs fd f hf ns
    have hinv := SysInv_of_reachable hs
    have hmem : f ∈ s.files := List.getElem?_mem hf
    obtain ⟨h0, h92⟩ := hinv.2.2.1 f hmem
    obtain ⟨st2, hread, _⟩ := fib_read_defined f.f_pos h0 h92 ns s.store hinv.2.2.2
    obtain ⟨n, hn⟩ := Int.eq_ofNat_of_zero_le h0
    have hseq : fib_sequence f.f_pos = some (fibSpec f.f_pos.toNat : Int) := by
      rw [hn]
      simpa using fib_sequence_exact n (by omega)
    refine ⟨_, st2,
      { s with store := st2, files := s.files.set fd { f_pos := f.f_pos } },
      hseq, hread, ?_, ?_⟩
    · simp only [step, hf, Option.some_bind, hread, Option.map_some']
    · exact set_of_getElem? s.files fd f hf

/-- C5: for every session whose cursor is `k` in `0 .. 92`, `fib_read`
returns `fib_sequence k` and leaves the cursor equal to `k`, so a second read
without a seek in between returns the same value, at the same cursor. -/
theorem fib_read_returns_value (k : Int) (h0 : 0 ≤ k) (h92 : k ≤ 92)
    (st : Store) (hwf : st.WF) (ns ns2 : Nat) :
    ∃ r st2 st3, fib_sequence k = some r ∧
      fib_read k ns st = some (r, k, st2) ∧
      fib_read k ns2 st2 = some (r, k, st3) ∧
      step { fib_mutex := true, store := st, files := [{ f_pos := k }] }
          (Op.sys_read 0 ns)
        = some (r, { fib_mutex := true, store := st2, files := [{ f_pos := k }] }) := by
  obtain ⟨st2, hread, hwf2⟩ := fib_read_defined k h0 h92 ns st hwf
  obtain ⟨st3, hread2, _⟩ := fib_read_defined k h0 h92 ns2 st2 hwf2
  obtain ⟨n, hn⟩ := Int.eq_ofNat_of_zero_le h0
  have hseq : fib_sequence k = some (fibSpec k.toNat : Int) := by
    rw [hn]
    simpa using fib_sequence_exact n (by omega)
  refine ⟨_, st2, st3, hseq, hread, hread2, ?_⟩
  simp [step, hread]

/-- Witness of C5: two reads at cursor 10 of the zeroed store return 55. -/
theorem fib_read_returns_value_witness :
    Store.zero.WF ∧
    ∃ r st2 st3, fib_sequence 10 = some r ∧
      fib_read 10 3 Store.zero = some (r, 10, st2) ∧
      fib_read 10 4 st2 = some (r, 10, st3) ∧
      step { fib_mutex := true, store := Store.zero, files := [{ f_pos := 10 }] }
          (Op.sys_read 0 3)
        = some (r, { fib_mutex := true, store := st2, files := [{ f_pos := 10 }] }) :=
  ⟨Store.zero_WF,
    fib_read_returns_value 10 (by decide) (by decide) Store.zero Store.zero_WF 3 4⟩

/-- C6 (counterexample): in the well-formed store whose entry 0 holds the
count `2^32 - 1` and the time `2^64 - 1`, a read at cursor 0 with elapsed time
1 leaves the count 0 and the time 0: the count is not incremented by 1 and
the time is not increased by the elapsed time. -/
theorem fib_read_counter_wraps :
    Store.WF { stat_ns := 18446744073709551615 :: List.replicate 92 0,
               stat_cnt := 4294967295 :: List.replicate 92 0 } ∧
    fib_read 0 1 { stat_ns := 18446744073709551615 :: List.replicate 92 0,
                   stat_cnt := 4294967295 :: List.replicate 92 0 }
      = some (0, 0, { stat_ns := 0 :: List.replicate 92 0,
                      stat_cnt := 0 :: List.replicate 92 0 }) := by
  decide

/-- C6 (amended): for every well-formed statistics store, cursor `k` in
`0 .. 92` and elapsed time `e`, one `fib_read` replaces `stat_ns[k]` by
`(stat_ns[k] + e) mod 2^64` and `stat_cnt[k]` by `(stat_cnt[k] + 1) mod 2^32`,
which is adding `e` and incrementing by exactly 1 whenever the results fit the
64-bit and the 32-bit counter, and leaves the entries of every other index
unchanged; hence three reads at a fixed `k` starting from the zeroed store give
`stat_cnt[k] = 3` and `stat_ns[k] = (e1 + e2 + e3) mod 2^64`, the sum of the
three elapsed times when that sum is below `2^64`. -/
theorem fib_read_accumulates (k : Nat) (hk : k ≤ 92) (st : Store)
    (hwf : st.WF) (e : Nat) :
    (∃ r st2, fib_read (k : Int) e st = some (r, (k : Int), st2) ∧
      st2.stat_ns[k]? = some ((st.stat_ns.getD k 0 + e) % 2 ^ 64) ∧
      st2.stat_cnt[k]? = some ((st.stat_cnt.getD k 0 + 1) % 2 ^ 32) ∧
      (st.stat_ns.getD k 0 + e < 2 ^ 64 →
        st2.stat_ns[k]? = some (st.stat_ns.getD k 0 + e)) ∧
      (st.stat_cnt.getD k 0 + 1 < 2 ^ 32 →
        st2.stat_cnt[k]? = some (st.stat_cnt.getD k 0 + 1)) ∧
      (∀ i : Nat, i ≠ k →
        st2.stat_ns[i]? = st.stat_ns[i]? ∧ st2.stat_cnt[i]? = st.stat_cnt[i]?)) ∧
    (∀ e1 e2 e3 : Nat, ∃ r1 r2 r3 s1 s2 s3,
      fib_read (k : Int) e1 Store.zero = some (r1, (k : Int), s1) ∧
      fib_read (k : Int) e2 s1 = some (r2, (k : Int), s2) ∧
      fib_read (k : Int) e3 s2 = some (r3, (k : Int), s3) ∧
      s3.stat_cnt[k]? = some 3 ∧
      s3.stat_ns[k]? = some ((e1 + e2 + e3) % 2 ^ 64) ∧
      (e1 + e2 + e3 < 2 ^ 64 → s3.stat_ns[k]? = some (e1 + e2 + e3))) := by
  have hl1 : k < st.stat_ns.length := by have := hwf.1; omega
  have hl2 : k < st.stat_cnt.length := by have := hwf.2.1; omega
  constructor
  · obtain ⟨st2, hr, _, hns, hcnt, hframe⟩ :=
      fib_read_entry k hk e st hwf _ _ (getElem?_of_lt_getD hl1)
        (getElem?_of_lt_getD hl2)
    refine ⟨_, st2, hr, hns, hcnt, ?_, ?_, hframe⟩
    · intro h
      rw [hns, Nat.mod_eq_of_lt h]
    · intro h
      rw [hcnt, Nat.mod_eq_of_lt h]
  · intro e1 e2 e3
    obtain ⟨z1, z2⟩ := Store.zero_getElem? k hk
    obtain ⟨s1, hr1, hw1, hn1, hc1, _⟩ :=
      fib_read_entry k hk e1 Store.zero Store.zero_WF 0 0 z1 z2
    obtain ⟨s2, hr2, hw2, hn2, hc2, _⟩ :=
      fib_read_entry k hk e2 s1 hw1 _ _ hn1 hc1
    obtain ⟨s3, hr3, _, hn3, hc3, _⟩ :=
      fib_read_entry k hk e3 s2 hw2 _ _ hn2 hc2
    have hmod : (((0 + e1) % 2 ^ 64 + e2) % 2 ^ 64 + e3) % 2 ^ 64
        = (e1 + e2 + e3) % 2 ^ 64 := by omega
    refine ⟨_, _, _, s1, s2, s3, hr1, hr2, hr3, ?_, ?_, ?_⟩
    · rw [hc3]; rfl
    · rw [hn3, hmod]
    · intro h
      rw [hn3, hmod, Nat.mod_eq_of_lt h]

/-- Witness of C6 (amended): a read at cursor 5 of the zeroed store with
elapsed time 7. -/
theorem fib_read_accumulates_witness :
    (5 : Nat) ≤ 92 ∧ Store.zero.WF ∧
    ∃ r st2, fib_read ((5 : Nat) : Int) 7 Store.zero = some (r, ((5 : Nat) : Int), st2) ∧
      st2.stat_ns[5]? = some ((Store.zero.stat_ns.getD 5 0 + 7) % 2 ^ 64) ∧
      st2.stat_cnt[5]? = some ((Store.zero.stat_cnt.getD 5 0 + 1) % 2 ^ 32) :=
  have h := (fib_read_accumulates 5 (by decide) Store.zero Store.zero_WF 7).1
  ⟨by decide, Store.zero_WF,
    h.elim fun r h2 => h2.elim fun st2 h3 => ⟨r, st2, h3.1, h3.2.1, h3.2.2.1⟩⟩

/-- C7: `fib_open` fails with `-EBUSY` if and only if the gate (`fib_mutex`)
is already held.  When it fails no state changes: the mutex stays held, and
the sessions with their cursors and the statistics store are unchanged.  When
the gate is free, open succeeds with 0 and the gate becomes held. -/
theorem fib_open_busy_iff_held (s : Sys) :
    ((fib_open s.fib_mutex).1 = -EBUSY ↔ s.fib_mutex = true) ∧
    (fib_open s.fib_mutex).2 = true ∧
    (s.fib_mutex = true → step s Op.sys_open = some (-EBUSY, s)) ∧
    (s.fib_mutex = false →
      (fib_open s.fib_mutex).1 = 0 ∧
      step s Op.sys_open
        = some (0, { s with fib_mutex := true,
                            files := s.files ++ [{ f_pos := 0 }] })) ∧
    (∀ (r : Int) (s2 : Sys), step s Op.sys_open = some (r, s2) →
      (r = -EBUSY ↔ s.fib_mutex = true) ∧ (r = -EBUSY → s2 = s) ∧
      (r ≠ -EBUSY → r = 0 ∧ s2.fib_mutex = true ∧ s2.store = s.store)) := by
  refine ⟨?_, ?_, step_open_held s, ?_, ?_⟩
  · cases hm : s.fib_mutex <;> simp [fib_open, mutex_trylock, EBUSY]
  · cases hm : s.fib_mutex <;> rfl
  · intro hm
    exact ⟨by rw [hm]; rfl, step_open_free s hm⟩
  · intro r s2 h
    cases hm : s.fib_mutex with
    | true =>
      rw [step_open_held s hm] at h
      simp only [Option.some.injEq, Prod.mk.injEq] at h
      obtain ⟨h1, h2⟩ := h
      subst h1
      subst h2
      simp
    | false =>
      rw [step_open_free s hm] at h
      simp only [Option.some.injEq, Prod.mk.injEq] at h
      obtain ⟨h1, h2⟩ := h
      subst h1
      subst h2
      simp [EBUSY]

/-- C8: over the steps open, close, read, seek, write and reset, a close
being served only for a live session, every reachable state has at most one
live session, and the mutex is held exactly when there is one; after the
close of the holder the gate is free, no session is left, and the next open
succeeds. -/
theorem at_most_one_session (s : Sys) (h : Reachable s) :
    s.files.length ≤ 1 ∧ (s.fib_mutex = true ↔ s.files.length = 1) ∧
    (∀ (fd : Nat) (r : Int) (s2 : Sys),
      step s (Op.sys_close fd) = some (r, s2) →
      s2.fib_mutex = false ∧ s2.files = [] ∧
      ∃ s3, step s2 Op.sys_open = some (0, s3) ∧ s3.fib_mutex = true ∧
        s3.files = [{ f_pos := 0 }]) := by
  have hinv := SysInv_of_reachable h
  refine ⟨hinv.1, hinv.2.1, ?_⟩
  intro fd r s2 hstep
  have hinv2 := SysInv_step hinv hstep
  have hm2 : s2.fib_mutex = false := by
    by_cases hfd : fd < s.files.length
    · simp only [step, hfd, if_true, fib_release, mutex_unlock,
        Option.some.injEq, Prod.mk.injEq] at hstep
      rw [← hstep.2]
    · simp [step, hfd] at hstep
  have hf2 : s2.files = [] := by
    rcases files_of_inv hinv2 with ⟨_, hf⟩ | ⟨hm, _⟩
    · exact hf
    · rw [hm2] at hm
      exact absurd hm (by decide)
  refine ⟨hm2, hf2, _, step_open_free s2 hm2, rfl, ?_⟩
  simp [hf2]

/-- Witness of C8: the state after one open is reachable; it has one
session, and closing it frees the gate. -/
theorem at_most_one_session_witness :
    Reachable { fib_mutex := true, store := Store.zero, files := [{ f_pos := 0 }] } ∧
    ([{ f_pos := 0 }] : List File).length ≤ 1 ∧
    step { fib_mutex := true, store := Store.zero, files := [{ f_pos := 0 }] }
        (Op.sys_close 0) = some (0, Sys.init) :=
  have h1 : step Sys.init Op.sys_open
      = some (0, { fib_mutex := true, store := Store.zero, files := [{ f_pos := 0 }] }) := rfl
  have hr := Reachable.step Reachable.init h1
  ⟨hr, (at_most_one_session _ hr).1, rfl⟩

/-- C9: for every statistics store (two arrays of 93 entries) and every input
that `kstrtoint` accepts (return value 0, whatever the parsed value),
`reset_store` sets `stat_ns[i] = 0` and `stat_cnt[i] = 0` for every index `i`
in `0 .. 92`, regardless of what was accumulated, and returns `count`.  With
the kernel's `kstrtoint` the inputs `1`, `0`, `-7` and `+42` followed by a
newline are all accepted. -/
theorem reset_store_zeroes (kstrtoint : List Char → Nat → Int × Option Int)
    (buf : List Char) (count : Nat) (st : Store) (hwf : st.WF)
    (hcount : count < 2 ^ 63) (hparse : (kstrtoint buf 10).1 = 0) :
    (∃ st2, reset_store kstrtoint buf count st = some ((count : Int), st2) ∧
      ∀ i : Nat, i ≤ 92 → st2.stat_ns[i]? = some 0 ∧ st2.stat_cnt[i]? = some 0) ∧
    (linux_kstrtoint ['1'] 10).1 = 0 ∧
    (linux_kstrtoint ['0', Char.ofNat 10] 10).1 = 0 ∧
    (linux_kstrtoint ['-', '7', Char.ofNat 10] 10).1 = 0 ∧
    (linux_kstrtoint ['+', '4', '2', Char.ofNat 10] 10).1 = 0 := by
  refine ⟨⟨Store.zero, ?_, Store.zero_getElem?⟩, by decide, by decide,
    by decide, by decide⟩
  rw [reset_store_ok kstrtoint buf count st hparse hwf.1 hwf.2.1,
    wrap64_of_inS64 (by unfold inS64; omega)]

/-- Witness of C9: writing `0` and a newline (2 bytes) resets a store that
holds one recorded read. -/
theorem reset_store_zeroes_witness :
    Store.WF { stat_ns := 250 :: List.replicate 92 0,
               stat_cnt := 1 :: List.replicate 92 0 } ∧
    (linux_kstrtoint ['0', Char.ofNat 10] 10).1 = 0 ∧
    ∃ st2, reset_store linux_kstrtoint ['0', Char.ofNat 10] 2
        { stat_ns := 250 :: List.replicate 92 0,
          stat_cnt := 1 :: List.replicate 92 0 } = some (((2 : Nat) : Int), st2) ∧
      ∀ i : Nat, i ≤ 92 → st2.stat_ns[i]? = some 0 ∧ st2.stat_cnt[i]? = some 0 :=
  ⟨by decide, by decide,
    (reset_store_zeroes linux_kstrtoint ['0', Char.ofNat 10] 2
      { stat_ns := 250 :: List.replicate 92 0,
        stat_cnt := 1 :: List.replicate 92 0 }
      (by decide) (by decide) (by decide)).1⟩

/-- C10: for every input that `kstrtoint` rejects (a return value other than
0), `reset_store` leaves every statistics entry unchanged and still returns
`count`, which is not an error.  With the kernel's `kstrtoint` the inputs
`abc`, the empty string and `12 ` are rejected. -/
theorem reset_store_ignores_rejected
    (kstrtoint : List Char → Nat → Int × Option Int)
    (buf : List Char) (count : Nat) (st : Store)
    (hcount : count < 2 ^ 63) (hparse : (kstrtoint buf 10).1 ≠ 0) :
    reset_store kstrtoint buf count st = some ((count : Int), st) ∧
    (0 : Int) ≤ (count : Int) ∧
    (linux_kstrtoint ['a', 'b', 'c'] 10).1 ≠ 0 ∧
    (linux_kstrtoint [] 10).1 ≠ 0 ∧
    (linux_kstrtoint ['1', '2', ' '] 10).1 ≠ 0 := by
  refine ⟨?_, by omega, by decide, by decide, by decide⟩
  rw [reset_store_fail kstrtoint buf count st hparse,
    wrap64_of_inS64 (by unfold inS64; omega)]

/-- Witness of C10: writing `abc` (3 bytes) leaves a store with one recorded
read as it is. -/
theorem reset_store_ignores_rejected_witness :
    (linux_kstrtoint ['a', 'b', 'c'] 10).1 ≠ 0 ∧
    reset_store linux_kstrtoint ['a', 'b', 'c'] 3
        { stat_ns := 250 :: List.replicate 92 0,
          stat_cnt := 1 :: List.replicate 92 0 }
      = some (((3 : Nat) : Int),
          { stat_ns := 250 :: List.replicate 92 0,
            stat_cnt := 1 :: List.replicate 92 0 }) :=
  ⟨by decide,
    (reset_store_ignores_rejected linux_kstrtoint ['a', 'b', 'c'] 3
      { stat_ns := 250 :: List.replicate 92 0,
        stat_cnt := 1 :: List.replicate 92 0 }
      (by decide) (by decide)).1⟩


/-- C11: for every statistics store, on a page of `PAGE_SIZE ≥ 4096` bytes,
the text `result_show` leaves in the page is the listing: exactly one line
`<i>: <stat_ns[i]> / <stat_cnt[i]>` for each index `i` of `0 .. 92` with
`stat_cnt[i] > 0`, in strictly ascending index order, and no line for an
index with `stat_cnt[i] == 0`; the returned length is the length of that
text. -/
theorem result_show_lists_counted (PAGE_SIZE : Nat) (st : Store)
    (buf : List Char) (hwf : st.WF) (hbuf : buf.length = PAGE_SIZE)
    (hlo : 4096 ≤ PAGE_SIZE) (hhi : PAGE_SIZE ≤ 2 ^ 31) :
    (∃ r, result_show PAGE_SIZE st buf
        = some (((listing st 93).length : Int), r) ∧
      r.len = (listing st 93).length ∧
      r.buf.take r.len = listing st 93) ∧
    listing st 93
      = (shown_indexes st 93).flatMap (fun i =>
          dec i ++ [':', ' '] ++ dec (st.stat_ns.getD i 0) ++ [' ', '/', ' ']
            ++ dec (st.stat_cnt.getD i 0) ++ [Char.ofNat 10]) ∧
    (shown_indexes st 93).Pairwise (fun i j => i < j) ∧
    (∀ i : Nat, i ∈ shown_indexes st 93 ↔ i ≤ 92 ∧ 0 < st.stat_cnt.getD i 0) := by
  refine ⟨?_, ?_, ?_, ?_⟩
  · obtain ⟨r, hrun, hinv⟩ := result_show_spec PAGE_SIZE st buf hwf hbuf hlo hhi
    exact ⟨r, hrun, hinv.2.1, hinv.2.2.1⟩
  · unfold listing
    congr 1
  · exact List.Pairwise.filter _ (List.pairwise_lt_range 93)
  · intro i
    unfold shown_indexes
    rw [List.mem_filter, List.mem_range]
    simp only [ne_eq, decide_not, Bool.not_eq_true', decide_eq_false_iff_not]
    constructor
    · intro h
      exact ⟨Nat.le_of_lt_succ h.1, Nat.pos_of_ne_zero h.2⟩
    · intro h
      exact ⟨Nat.lt_succ_of_le h.1, Nat.ne_of_gt h.2⟩

/-- Witness of C11: with counts only at the indexes 3 and 10, a page of 4096
bytes receives the two lines `3: 1500 / 2` and `10: 77 / 1`, 23 bytes. -/
theorem result_show_lists_counted_witness :
    listing { stat_ns := ((List.replicate 93 0).set 3 1500).set 10 77,
              stat_cnt := ((List.replicate 93 0).set 3 2).set 10 1 } 93
      = "3: 1500 / 2\n10: 77 / 1\n".toList ∧
    ∃ r, result_show 4096
        { stat_ns := ((List.replicate 93 0).set 3 1500).set 10 77,
          stat_cnt := ((List.replicate 93 0).set 3 2).set 10 1 }
        (List.replicate 4096 (Char.ofNat 0))
        = some (((listing
            { stat_ns := ((List.replicate 93 0).set 3 1500).set 10 77,
              stat_cnt := ((List.replicate 93 0).set 3 2).set 10 1 } 93).length : Int), r) ∧
      r.len = (listing
            { stat_ns := ((List.replicate 93 0).set 3 1500).set 10 77,
              stat_cnt := ((List.replicate 93 0).set 3 2).set 10 1 } 93).length ∧
      r.buf.take r.len = listing
            { stat_ns := ((List.replicate 93 0).set 3 1500).set 10 77,
              stat_cnt := ((List.replicate 93 0).set 3 2).set 10 1 } 93 :=
  ⟨by decide,
    (result_show_lists_counted 4096
      { stat_ns := ((List.replicate 93 0).set 3 1500).set 10 77,
        stat_cnt := ((List.replicate 93 0).set 3 2).set 10 1 }
      (List.replicate 4096 (Char.ofNat 0)) (by decide)
      (List.length_replicate _ _) (by decide) (by decide)).1⟩

/-- C12 (counterexample): after an open and `2^32` reads at cursor 0 with
elapsed time 1 each, the reachable state has a well-formed store whose entry
0 holds the count 0, wrapped from `2^32 - 1`, and the time `2^32`: a count of
0 with a total time other than 0. -/
theorem stat_invariant_broken_by_wrap :
    ∃ s : Sys, Reachable s ∧ s.store.WF ∧ s.store.stat_cnt.getD 0 0 = 0 ∧
      s.store.stat_ns.getD 0 0 = 4294967296 ∧ ¬ StatInv s.store := by
  have hr := reads_reachable 1 4294967296
  refine ⟨_, hr, (SysInv_of_reachable hr).2.2.2, ?_, ?_, ?_⟩
  · simp
  · simp
  · intro h
    have h0 := h 0 (by decide) (by simp)
    simp at h0

/-- C12 (amended): the invariant `count == 0 implies total_time_ns == 0`
holds for every index in the zero-initialised store, is preserved by every
`reset_store`, and is preserved by every `fib_read` at an index whose 32-bit
count is not `2^32 - 1`, that is as long as the count does not wrap to 0;
so it holds in every state reached from startup by fewer than `2^32`
requests. -/
theorem stat_invariant_until_wrap :
    StatInv Store.zero ∧
    (∀ (kstrtoint : List Char → Nat → Int × Option Int) (buf : List Char)
      (count : Nat) (st st2 : Store) (r : Int), st.WF → StatInv st →
      reset_store kstrtoint buf count st = some (r, st2) → StatInv st2) ∧
    (∀ (k e : Nat) (st st2 : Store) (r r2 : Int), k ≤ 92 → st.WF →
      StatInv st → st.stat_cnt.getD k 0 ≠ 2 ^ 32 - 1 →
      fib_read (k : Int) e st = some (r, r2, st2) → StatInv st2) ∧
    (∀ (ops : List Op) (s : Sys), ops.length < 2 ^ 32 →
      run Sys.init ops = some s → Reachable s ∧ StatInv s.store) := by
  refine ⟨StatInv_zero, ?_, ?_, ?_⟩
  · intro p buf count st st2 r hwf hinv h
    by_cases hp : (p buf 10).1 = 0
    · rw [reset_store_ok p buf count st hp hwf.1 hwf.2.1] at h
      simp only [Option.some.injEq, Prod.mk.injEq] at h
      rw [← h.2]
      exact StatInv_zero
    · rw [reset_store_fail p buf count st hp] at h
      simp only [Option.some.injEq, Prod.mk.injEq] at h
      rw [← h.2]
      exact hinv
  · intro k e st st2 r r2 hk hwf hinv hne hread
    have hl2 : k < st.stat_cnt.length := by have := hwf.2.1; omega
    have hlt : st.stat_cnt.getD k 0 < 2 ^ 32 :=
      hwf.2.2.2 _ (List.getElem?_mem (getElem?_of_lt_getD hl2))
    exact (StatInv_read (n := 2 ^ 32) hk hwf hinv
      (fun i _ => by
        by_cases hi : i < st.stat_cnt.length
        · exact Nat.le_of_lt (hwf.2.2.2 _ (List.getElem?_mem (getElem?_of_lt_getD hi)))
        · simp [List.getElem?_eq_none (Nat.le_of_not_lt hi)])
      (by omega) hread).1
  · intro ops s hlen h
    refine ⟨reachable_of_run ops _ s Reachable.init h, ?_⟩
    exact StatInv_run ops Sys.init s 0 SysInv_init StatInv_zero
      (fun i hi => cnt_bound_zero 0 i hi)
      (by omega) h

/-- Witness of C12 (amended): an open, a seek to 7, a read and a reset by
`x`, which `kstrtoint` rejects, lead to a state whose entries satisfy the
invariant. -/
theorem stat_invariant_until_wrap_witness :
    ∃ s : Sys,
      run Sys.init [Op.sys_open, Op.sys_lseek 0 7 0, Op.sys_read 0 120,
        Op.sysfs_reset ['x'] 1] = some s ∧
      s.store.stat_cnt.getD 7 0 = 1 ∧ s.store.stat_ns.getD 7 0 = 120 ∧
      Reachable s ∧ StatInv s.store :=
  have h : run Sys.init [Op.sys_open, Op.sys_lseek 0 7 0, Op.sys_read 0 120,
        Op.sysfs_reset ['x'] 1]
      = some { fib_mutex := true,
               store := { stat_ns := (List.replicate 93 0).set 7 120,
                          stat_cnt := (List.replicate 93 0).set 7 1 },
               files := [{ f_pos := 7 }] } := by decide
  ⟨_, h, by decide, by decide,
    stat_invariant_until_wrap.2.2.2 _ _ (by decide) h⟩

/-- C13 (code defect): startup does not undo every completed step on every
failure.  When `sysfs_create_group` fails and both allocations succeed,
`init_fib_dev` reports the failure but both statistics arrays stay allocated;
when in addition the allocation of `stat_ns` fails, the kobject is put twice;
when `cdev_add` fails, the cdev of `cdev_alloc` stays allocated.  A failure of
`device_create`, and a failure of the first allocation alone, are rolled back
completely. -/
theorem init_fib_dev_rollback_incomplete :
    init_fib_dev { InitEnv.ok with sysfs_create_group := -12 }
      = (-12, { InitState.empty with
                  ns_alloc := 1, cnt_alloc := 1,
                  stat_ns := some (List.replicate 93 0),
                  stat_cnt := some (List.replicate 93 0) }) ∧
    ¬ (init_fib_dev { InitEnv.ok with sysfs_create_group := -12 }).2.clean ∧
    (init_fib_dev { InitEnv.ok with sysfs_create_group := -12,
                                    kcalloc_ns := false }).1 = -ENOMEM ∧
    (init_fib_dev { InitEnv.ok with sysfs_create_group := -12,
                                    kcalloc_ns := false }).2.kobj = -1 ∧
    (init_fib_dev { InitEnv.ok with cdev_add := -1 }).1 = -2 ∧
    (init_fib_dev { InitEnv.ok with cdev_add := -1 }).2.cdev = 1 ∧
    (init_fib_dev { InitEnv.ok with device_create := false }).1 = -4 ∧
    (init_fib_dev { InitEnv.ok with device_create := false }).2.clean ∧
    (init_fib_dev { InitEnv.ok with kcalloc_ns := false }).1 = -ENOMEM ∧
    (init_fib_dev { InitEnv.ok with kcalloc_ns := false }).2.clean := by
  decide

/-- C14 (code defect): the test `!stat_ns || !stat_ns` never looks at
`stat_cnt`.  When only the allocation of `stat_cnt` fails, `init_stat`
returns 0 and `init_fib_dev` reports success with `stat_cnt` equal to `NULL`,
whereas the startup in which every call succeeds leaves two zeroed arrays of
93 entries; a failed allocation of `stat_ns` is reported with `-ENOMEM`. -/
theorem init_stat_misses_stat_cnt :
    (init_fib_dev InitEnv.ok).1 = 0 ∧
    (init_fib_dev InitEnv.ok).2.stat_ns = some Store.zero.stat_ns ∧
    (init_fib_dev InitEnv.ok).2.stat_cnt = some Store.zero.stat_cnt ∧
    (init_stat { InitEnv.ok with kcalloc_cnt := false } InitState.empty).1 = 0 ∧
    (init_fib_dev { InitEnv.ok with kcalloc_cnt := false }).1 = 0 ∧
    (init_fib_dev { InitEnv.ok with kcalloc_cnt := false }).2.stat_cnt = none ∧
    (init_fib_dev { InitEnv.ok with kcalloc_cnt := false }).2.stat_ns
      = some (List.replicate 93 0) ∧
    (∀ (env : InitEnv) (s : InitState), env.kobject_create_and_add = true →
      env.kcalloc_ns = false → (init_stat env s).1 = -ENOMEM) := by
  refine ⟨by decide, by decide, by decide, by decide, by decide, by decide,
    by decide, ?_⟩
  intro env s hk hn
  cases hc : env.kcalloc_cnt <;> simp [init_stat, hk, hn, hc]

/-- C15: for every buffer, size and position `fib_write` returns 1 and
changes no state: the position is returned as it was, and the step of a live
session leaves the whole state (cursor, mutex, statistics) as it is. -/
theorem fib_write_no_effect (buf : List Char) (size : Nat) (offset : Int) :
    fib_write buf size offset = (1, offset) ∧
    ∀ (s : Sys) (fd : Nat), fd < s.files.length →
      step s (Op.sys_write fd buf size) = some (1, s) := by
  refine ⟨rfl, ?_⟩
  intro s fd hfd
  have hget : s.files[fd]? = some (s.files[fd]) := List.getElem?_eq_getElem hfd
  simp only [step, hget, Option.map_some', fib_write]
  rw [set_of_getElem? s.files fd _ hget]

/-- C17: for every `k` with `0 ≤ k ≤ 92` the run of `fib_sequence k` is
defined, that is every access to the working array of `k + 2` cells is inside
the array: the writes `f[0]` and `f[1]` (for `k = 0` the array has exactly
these two cells), the reads `f[i - 1]`, `f[i - 2]` and the write `f[i]` of
every iteration, and the final read `f[k]`.  The loop ends after at most
`k - 1` iterations, a count of iterations being a natural number: exactly
`k - 1` for `k ≥ 1` and none for `k = 0`.  For `k = -1` the array has one
cell and the write `f[1]` is outside it. -/
theorem fib_sequence_in_bounds (k : Int) (h0 : 0 ≤ k) (h92 : k ≤ 92) :
    (∃ r s, fib_sequence_run k = some (r, s) ∧
      (s.f.length : Int) = k + 2 ∧ s.iters ≤ k.toNat - 1 ∧
      s.iters = (k - 1).toNat ∧ (1 ≤ k → (s.iters : Int) = k - 1)) ∧
    fib_sequence_run 0
      = some (0, { f := [some 0, some 1], overflow := false, iters := 0 }) ∧
    vla_alloc (wrap64 (-1 + 2)) = some [none] ∧
    arr_store [none] 0 0 = some [some 0] ∧
    arr_store [some 0] 1 1 = none ∧
    fib_sequence_run (-1) = none := by
  refine ⟨?_, by decide, by decide, by decide, by decide, by decide⟩
  obtain ⟨n, rfl⟩ := Int.eq_ofNat_of_zero_le h0
  obtain ⟨s, hrun, hit, _, hlen⟩ := fib_sequence_run_spec n (by omega)
  refine ⟨_, s, hrun, hlen, ?_, ?_, ?_⟩
  · rw [hit]; simp
  · rw [hit]; omega
  · intro h1
    rw [hit]; omega

/-- Witness of C17 at the largest index: 91 iterations over 94 cells. -/
theorem fib_sequence_in_bounds_witness :
    ∃ r s, fib_sequence_run 92 = some (r, s) ∧
      (s.f.length : Int) = 92 + 2 ∧ s.iters ≤ (92 : Int).toNat - 1 ∧
      s.iters = ((92 : Int) - 1).toNat ∧
      ((1 : Int) ≤ 92 → (s.iters : Int) = 92 - 1) :=
  (fib_sequence_in_bounds 92 (by decide) (by decide)).1

/-- C18: with `PAGE_SIZE ≥ 4096`, for every statistics store of 93 entries
(64-bit times, 32-bit counts) the length `result_show` accumulates is at most
`10 * 37 + 83 * 38 = 3524` and so strictly below `limit = PAGE_SIZE - 32`: no
line is cut by `snprintf`, the branch of the truncation marker is not taken,
and the returned length is the accumulated one and does not exceed the page.
The store with every time `2^64 - 1` and every count `2^32 - 1` reaches 3524. -/
theorem result_show_never_truncates (PAGE_SIZE : Nat) (st : Store)
    (buf : List Char) (hwf : st.WF) (hbuf : buf.length = PAGE_SIZE)
    (hlo : 4096 ≤ PAGE_SIZE) (hhi : PAGE_SIZE ≤ 2 ^ 31) :
    (∃ ret r, result_show PAGE_SIZE st buf = some (ret, r) ∧
      r.len ≤ 10 * 37 + 83 * 38 ∧ r.len < PAGE_SIZE - 32 ∧
      r.cut = false ∧ r.marker = false ∧
      ret = (r.len : Int) ∧ ret ≤ (PAGE_SIZE : Int) ∧
      r.buf.length = PAGE_SIZE) ∧
    (listing { stat_ns := List.replicate 93 18446744073709551615,
               stat_cnt := List.replicate 93 4294967295 } 93).length = 3524 := by
  constructor
  · obtain ⟨r, hrun, hinv⟩ := result_show_spec PAGE_SIZE st buf hwf hbuf hlo hhi
    obtain ⟨hb, hlen, _, hbound, hcut, hmark⟩ := hinv
    obtain ⟨_, _, _, _, hno, h3524, _⟩ :=
      show_final PAGE_SIZE r.len hlo hhi hbound
    refine ⟨_, r, hrun, h3524, Nat.lt_of_not_le hno, hcut, hmark, ?_, ?_, hb⟩
    · rw [hlen]
    · rw [← hlen]
      have : r.len ≤ PAGE_SIZE := by
        have := Nat.lt_of_not_le hno
        exact Nat.le_trans (Nat.le_of_lt this) (Nat.sub_le _ _)
      exact_mod_cast this
  · exact listing_full_length

/-- Witness of C18: the full store on a page of 4096 bytes. -/
theorem result_show_never_truncates_witness :
    ∃ ret r, result_show 4096
        { stat_ns := List.replicate 93 18446744073709551615,
          stat_cnt := List.replicate 93 4294967295 }
        (List.replicate 4096 (Char.ofNat 0)) = some (ret, r) ∧
      r.len ≤ 10 * 37 + 83 * 38 ∧ r.len < 4096 - 32 ∧
      r.cut = false ∧ r.marker = false ∧
      ret = (r.len : Int) ∧ ret ≤ ((4096 : Nat) : Int) ∧
      r.buf.length = 4096 :=
  (result_show_never_truncates 4096
    { stat_ns := List.replicate 93 18446744073709551615,
      stat_cnt := List.replicate 93 4294967295 }
    (List.replicate 4096 (Char.ofNat 0)) (by decide)
    (List.length_replicate _ _) (by decide) (by decide)).1

/-- C19: for every cursor `c` in `0 .. 92` and every offset with
`-(2^63 - 93) ≤ offset ≤ 2^63 - 93`, the sums `c + offset` and `92 - offset`
stay in the signed 64-bit range, so `fib_device_lseek` returns and stores
`max(0, min(n, 92))` for the mathematical position `n` of each of the three
origins; from the start nothing is added, so that holds for every offset. -/
theorem fib_device_lseek_no_overflow (c offset : Int) (hc0 : 0 ≤ c)
    (hc92 : c ≤ 92) (hlo : -(2 ^ 63 - 93) ≤ offset)
    (hhi : offset ≤ 2 ^ 63 - 93) :
    inS64 (c + offset) ∧ inS64 (92 - offset) ∧
    wrap64 (c + offset) = c + offset ∧ wrap64 (92 - offset) = 92 - offset ∧
    (∀ orig : Int, orig = 0 ∨ orig = 1 ∨ orig = 2 →
      fib_device_lseek { f_pos := c } offset orig
        = (clamp (seekTarget c offset orig),
           { f_pos := clamp (seekTarget c offset orig) })) ∧
    (∀ off2 : Int,
      fib_device_lseek { f_pos := c } off2 0
        = (clamp (seekTarget c off2 0), { f_pos := clamp (seekTarget c off2 0) })) := by
  have h1 : inS64 (c + offset) := by unfold inS64; omega
  have h2 : inS64 (92 - offset) := by unfold inS64; omega
  refine ⟨h1, h2, wrap64_of_inS64 h1, wrap64_of_inS64 h2, ?_, ?_⟩
  · intro orig horig
    rw [fib_device_lseek_eq]
    rcases horig with h | h | h
    · subst h; simp [seekTarget]
    · subst h; simp [seekTarget, wrap64_of_inS64 h1]
    · subst h; simp [seekTarget, wrap64_of_inS64 h2]
  · intro off2
    rw [fib_device_lseek_eq]
    simp [seekTarget]

/-- Witness of C19 at the ends of the range: from cursor 92 a seek by
`2^63 - 93` from the current position gives 92, and a seek by `-(2^63 - 93)`
from the end gives 92. -/
theorem fib_device_lseek_no_overflow_witness :
    fib_device_lseek { f_pos := 92 } 9223372036854775715 1 = (92, { f_pos := 92 }) ∧
    fib_device_lseek { f_pos := 92 } (-9223372036854775715) 2 = (92, { f_pos := 92 }) :=
  have h1 := (fib_device_lseek_no_overflow 92 9223372036854775715 (by decide)
    (by decide) (by decide) (by decide)).2.2.2.2.1 1 (Or.inr (Or.inl rfl))
  have h2 := (fib_device_lseek_no_overflow 92 (-9223372036854775715) (by decide)
    (by decide) (by decide) (by decide)).2.2.2.2.1 2 (Or.inr (Or.inr rfl))
  ⟨h1.trans (by decide), h2.trans (by decide)⟩

end Fibdrv
